import Mathlib

/-!
# Verification of the Qdrant MCP adapter's request/response core

A shallow embedding, in Lean, of the request/response translation and
error-normalization layer of the `primrose-mcp-qdrant` adapter:

* the JSON values the adapter serializes and parses (JS `JSON.stringify` /
  `JSON.parse`, restricted to integer numerics, since every numeric field the
  adapter round-trips is integral and floating point is outside the model);
* `encodeURIComponent` / `decodeURIComponent` for path segments;
* the tenant-credential resolver (`parseTenantCredentials`,
  `validateCredentials`);
* the shared HTTP request routine (`QdrantClientImpl.request`) that all
  endpoint methods delegate to, modelled as a pure function of the bound
  base URL and the (mocked) HTTP response;
* representative endpoint request constructors (`createCollection`,
  `getPoint`, `createFieldIndex`) and the `testConnection` composite.

Strings are Lean `String`s (lists of Unicode scalar values); JS strings that
contain lone surrogates are outside the model.
-/

namespace Qdrant

/-! ## JSON values

JS values as the adapter sees them after `JSON.parse`, and as it hands them to
`JSON.stringify`.  Numbers are integers (see the header note); object members
keep insertion order, as JS objects do. -/

inductive Json where
  | null
  | bool (b : Bool)
  | num (n : Int)
  | str (s : String)
  | arr (elems : List Json)
  | obj (members : List (String × Json))

/-! ### Decimal digits -/

/-- The character for a single decimal digit. -/
def digitChar (d : Nat) : Char := Char.ofNat (48 + d)

/-- Decimal digit characters, fuelled (the fuel only bounds the recursion
depth; any fuel above the value itself is enough). -/
def natCharsAux : Nat → Nat → List Char
  | 0, _ => []
  | fuel + 1, n =>
    if n < 10 then [digitChar n]
    else natCharsAux fuel (n / 10) ++ [digitChar (n % 10)]

/-- Decimal digit characters of a natural number, most significant first. -/
def natChars (n : Nat) : List Char := natCharsAux (n + 1) n

/-- Decimal characters of an integer: optional minus sign, then digits.
Matches what `JSON.stringify` prints for an integral JS number. -/
def intChars (n : Int) : List Char :=
  if n < 0 then '-' :: natChars n.natAbs else natChars n.natAbs

/-! ### String escaping (`JSON.stringify` side) -/

/-- Lowercase hex digit character for a nibble. -/
def hexChar (d : Nat) : Char :=
  if d < 10 then Char.ofNat (48 + d) else Char.ofNat (87 + d)

/-- One character of a string literal as `JSON.stringify` emits it: the
two-character escapes for `"` `\` and the named control characters, a
`\u00xx` escape for the remaining control characters, the character itself
otherwise. -/
def escapeChar (c : Char) : List Char :=
  if c = '"' then ['\\', '"']
  else if c = '\\' then ['\\', '\\']
  else if c = Char.ofNat 8 then ['\\', 'b']
  else if c = Char.ofNat 12 then ['\\', 'f']
  else if c = '\n' then ['\\', 'n']
  else if c = '\r' then ['\\', 'r']
  else if c = '\t' then ['\\', 't']
  else if c.toNat < 32 then
    ['\\', 'u', '0', '0', hexChar (c.toNat / 16), hexChar (c.toNat % 16)]
  else [c]

/-- JSON-escape every character of a string body. -/
def escapeString : List Char → List Char
  | [] => []
  | c :: cs => escapeChar c ++ escapeString cs

/-- A complete JSON string literal, quotes included. -/
def renderString (s : String) : List Char :=
  '"' :: (escapeString s.data ++ ['"'])

/-! ### `JSON.stringify` -/

mutual

/-- `JSON.stringify` (no spacing argument), producing the character list of
the serialized document. -/
def jsonStringify : Json → List Char
  | .null => "null".data
  | .bool true => "true".data
  | .bool false => "false".data
  | .num n => intChars n
  | .str s => renderString s
  | .arr [] => ['[', ']']
  | .arr (e :: es) => '[' :: (jsonStringify e ++ stringifyElems es) ++ [']']
  | .obj [] => ['{', '}']
  | .obj (m :: ms) => '{' :: (stringifyMember m ++ stringifyMembers ms) ++ ['}']

/-- The remaining array elements, each preceded by a comma. -/
def stringifyElems : List Json → List Char
  | [] => []
  | e :: es => ',' :: (jsonStringify e ++ stringifyElems es)

/-- A single `"key":value` object member. -/
def stringifyMember : String × Json → List Char
  | (k, v) => renderString k ++ ':' :: jsonStringify v

/-- The remaining object members, each preceded by a comma. -/
def stringifyMembers : List (String × Json) → List Char
  | [] => []
  | m :: ms => ',' :: (stringifyMember m ++ stringifyMembers ms)

end

/-! ### Lexical helpers (`JSON.parse` side) -/

/-- JSON insignificant whitespace. -/
def jsonWs (c : Char) : Bool := c = ' ' || c = '\n' || c = '\t' || c = '\r'

/-- Drop leading JSON whitespace. -/
def skipWs : List Char → List Char
  | c :: cs => if jsonWs c then skipWs cs else c :: cs
  | [] => []

/-- Decimal digit test. -/
def isDigitChar (c : Char) : Bool := 48 ≤ c.toNat && c.toNat ≤ 57

/-- Split off the longest leading run of decimal digits. -/
def takeDigits : List Char → List Char × List Char
  | c :: cs =>
    if isDigitChar c then
      let p := takeDigits cs
      (c :: p.1, p.2)
    else ([], c :: cs)
  | [] => ([], [])

/-- The natural number denoted by a digit run. -/
def digitsVal (ds : List Char) : Nat :=
  ds.foldl (fun a c => a * 10 + (c.toNat - 48)) 0

/-- Value of one hex digit, either case. -/
def hexDigitVal (c : Char) : Option Nat :=
  if 48 ≤ c.toNat ∧ c.toNat ≤ 57 then some (c.toNat - 48)
  else if 97 ≤ c.toNat ∧ c.toNat ≤ 102 then some (c.toNat - 87)
  else if 65 ≤ c.toNat ∧ c.toNat ≤ 70 then some (c.toNat - 55)
  else none

/-- Value of a four-hex-digit run, as in a `\uXXXX` escape. -/
def hex4 (a b c d : Char) : Option Nat := do
  let x ← hexDigitVal a
  let y ← hexDigitVal b
  let z ← hexDigitVal c
  let w ← hexDigitVal d
  return ((x * 16 + y) * 16 + z) * 16 + w

/-- The single-character escapes `JSON.parse` accepts (besides `\uXXXX`). -/
def simpleEscape (c : Char) : Option Char :=
  if c = '"' then some '"'
  else if c = '\\' then some '\\'
  else if c = '/' then some '/'
  else if c = 'b' then some (Char.ofNat 8)
  else if c = 'f' then some (Char.ofNat 12)
  else if c = 'n' then some '\n'
  else if c = 'r' then some '\r'
  else if c = 't' then some '\t'
  else none

/-- Decode one escape sequence (the part after the backslash), returning the
decoded character and the rest of the input.  `\uXXXX` escapes that form a
surrogate pair are combined; a lone surrogate is rejected (such JS strings
are outside the model). -/
def parseEscape : List Char → Option (Char × List Char)
  | [] => none
  | e :: rest2 =>
    if e = 'u' then
      match rest2 with
      | a :: b :: c2 :: d :: rest3 =>
        (match hex4 a b c2 d with
         | none => none
         | some n =>
           if 0xD800 ≤ n ∧ n < 0xDC00 then
             match rest3 with
             | s1 :: s2 :: a2 :: b2 :: c3 :: d2 :: rest4 =>
               if s1 = '\\' ∧ s2 = 'u' then
                 match hex4 a2 b2 c3 d2 with
                 | some m =>
                   if 0xDC00 ≤ m ∧ m < 0xE000 then
                     some (Char.ofNat
                       (0x10000 + (n - 0xD800) * 0x400 + (m - 0xDC00)), rest4)
                   else none
                 | none => none
               else none
             | _ => none
           else if 0xDC00 ≤ n ∧ n < 0xE000 then none
           else some (Char.ofNat n, rest3))
      | _ => none
    else
      match simpleEscape e with
      | some ch => some (ch, rest2)
      | none => none

/-- Parse the body of a string literal (after the opening quote) up to and
including the closing quote, returning the decoded characters and the rest of
the input.  Fuelled: every decoded character consumes at least one input
character, so `length + 1` fuel always suffices (see `parseStrChars`).
Unescaped control characters are rejected, as in RFC 8259. -/
def parseStrCharsF : Nat → List Char → Option (List Char × List Char)
  | 0, _ => none
  | fuel + 1, cs =>
    match cs with
    | [] => none
    | c :: rest =>
      if c = '"' then some ([], rest)
      else if c = '\\' then
        match parseEscape rest with
        | some (ch, r2) => (parseStrCharsF fuel r2).map fun p => (ch :: p.1, p.2)
        | none => none
      else if c.toNat < 32 then none
      else (parseStrCharsF fuel rest).map fun p => (c :: p.1, p.2)

/-- The string-literal body parser with enough fuel for its input. -/
def parseStrChars (cs : List Char) : Option (List Char × List Char) :=
  parseStrCharsF (cs.length + 1) cs

/-- Whether a number literal continues here (a fraction or exponent part); a
non-integral number is outside the integer-numeric model, so the parser
rejects it rather than approximating. -/
def numContinues : List Char → Bool
  | [] => false
  | c :: _ => c = '.' || c = 'e' || c = 'E'

/-- Parse a JSON number (integral only; see `numContinues`). -/
def parseNumber (cs : List Char) : Option (Json × List Char) :=
  let p : Bool × List Char :=
    match cs with
    | c :: r => if c = '-' then (true, r) else (false, cs)
    | [] => (false, cs)
  let q := takeDigits p.2
  match q.1 with
  | [] => none
  | d0 :: drest =>
    if d0 = '0' ∧ drest ≠ [] then none
    else if numContinues q.2 then none
    else some (.num (if p.1 then -(digitsVal (d0 :: drest) : Int)
                     else (digitsVal (d0 :: drest) : Int)), q.2)

/-- JS object construction semantics for one `key: value` assignment: an
existing key is overwritten in place, a fresh key is appended. -/
def objInsert (fs : List (String × Json)) (k : String) (v : Json) :
    List (String × Json) :=
  if fs.any (fun kv => kv.1 = k) then
    fs.map (fun kv => if kv.1 = k then (k, v) else kv)
  else fs ++ [(k, v)]

/-- Build a JS object from parsed members in order, later duplicates
overwriting earlier ones in place, as `JSON.parse` does. -/
def objFromMembers (ms : List (String × Json)) : List (String × Json) :=
  ms.foldl (fun acc kv => objInsert acc kv.1 kv.2) []

mutual

/-- One JSON value, fuelled.  The fuel only bounds the recursion through
arrays and objects; `jsonParse` supplies more fuel than any input can use. -/
def parseVal : Nat → List Char → Option (Json × List Char)
  | 0, _ => none
  | fuel + 1, cs =>
    match skipWs cs with
    | 'n' :: 'u' :: 'l' :: 'l' :: r => some (.null, r)
    | 't' :: 'r' :: 'u' :: 'e' :: r => some (.bool true, r)
    | 'f' :: 'a' :: 'l' :: 's' :: 'e' :: r => some (.bool false, r)
    | '"' :: r => (parseStrChars r).map fun p => (.str ⟨p.1⟩, p.2)
    | '[' :: r =>
      (match skipWs r with
       | ']' :: r2 => some (.arr [], r2)
       | cs2 => (parseElems fuel cs2).map fun p => (.arr p.1, p.2))
    | '{' :: r =>
      (match skipWs r with
       | '}' :: r2 => some (.obj [], r2)
       | cs2 => (parseMembers fuel cs2).map fun p => (.obj (objFromMembers p.1), p.2))
    | c :: rest =>
      if c = '-' || isDigitChar c then parseNumber (c :: rest) else none
    | [] => none

/-- One or more comma-separated array elements, up to and including the
closing bracket (the empty array is handled in `parseVal`). -/
def parseElems : Nat → List Char → Option (List Json × List Char)
  | 0, _ => none
  | fuel + 1, cs =>
    (parseVal fuel cs).bind fun vr =>
      match skipWs vr.2 with
      | ',' :: r2 => (parseElems fuel r2).map fun p => (vr.1 :: p.1, p.2)
      | ']' :: r2 => some ([vr.1], r2)
      | _ => none

/-- One or more comma-separated object members, up to and including the
closing brace (the empty object is handled in `parseVal`). -/
def parseMembers : Nat → List Char → Option (List (String × Json) × List Char)
  | 0, _ => none
  | fuel + 1, cs =>
    match skipWs cs with
    | '"' :: r =>
      (parseStrChars r).bind fun kr =>
        match skipWs kr.2 with
        | ':' :: r2 =>
          (parseVal fuel r2).bind fun vr =>
            match skipWs vr.2 with
            | ',' :: r4 =>
              (parseMembers fuel r4).map fun p => ((⟨kr.1⟩, vr.1) :: p.1, p.2)
            | '}' :: r4 => some ([(⟨kr.1⟩, vr.1)], r4)
            | _ => none
        | _ => none
    | _ => none

end

/-- `JSON.parse`: parse a whole document, allowing surrounding whitespace and
nothing else. -/
def jsonParse (s : String) : Option Json :=
  match parseVal (s.data.length + 1) s.data with
  | none => none
  | some (v, r) => if skipWs r = [] then some v else none

/-! ## JS primitives used by the request routine -/

/-- Prefix test on character lists. -/
def isPrefixList (needle hay : List Char) : Bool :=
  match needle with
  | [] => true
  | n :: ns =>
    match hay with
    | [] => false
    | h :: hs => n = h && isPrefixList ns hs

/-- Substring test on character lists (`needle` occurs in `hay`). -/
def containsSub (needle : List Char) : List Char → Bool
  | [] => isPrefixList needle []
  | c :: t => isPrefixList needle (c :: t) || containsSub needle t

/-- JS `hay.includes(needle)` on strings. -/
def jsIncludes (hay needle : String) : Bool := containsSub needle.data hay.data

/-- A JS number that is either an integer or `NaN` — the possible results of
`parseInt` in this code base. -/
inductive JsNum where
  | nan
  | int (n : Int)
deriving DecidableEq

/-- JS whitespace stripped by `parseInt`. -/
def jsWsChar (c : Char) : Bool :=
  c = ' ' || c = '\t' || c = '\n' || c = '\r' || c = Char.ofNat 11 || c = Char.ofNat 12

/-- JS `parseInt(s, 10)`: skip leading whitespace, take an optional sign and
the longest leading digit run, ignore the rest; `NaN` when no digits. -/
def jsParseInt (s : String) : JsNum :=
  let cs := s.data.dropWhile jsWsChar
  let p : Bool × List Char :=
    match cs with
    | '-' :: r => (true, r)
    | '+' :: r => (false, r)
    | r => (false, r)
  match takeDigits p.2 with
  | ([], _) => .nan
  | (d :: ds, _) =>
    .int (if p.1 then -(digitsVal (d :: ds) : Int) else (digitsVal (d :: ds) : Int))

/-- JS truthiness of a parsed JSON value (`NaN` and `undefined` cannot occur
here: `JSON.parse` never produces them). -/
def Json.truthy : Json → Bool
  | .null => false
  | .bool b => b
  | .num n => n ≠ 0
  | .str s => s ≠ ""
  | .arr _ => true
  | .obj _ => true

/-- JS property lookup on an object's member list (first match; member lists
built by this model are duplicate-free). -/
def lookupMember : List (String × Json) → String → Option Json
  | [], _ => none
  | (k', v) :: fs, k => if k' = k then some v else lookupMember fs k

/-- JS `v.k` / `v?.k`: property access yields `undefined` (`none`) on
anything but an object with that key. -/
def Json.getField : Json → String → Option Json
  | .obj fs, k => lookupMember fs k
  | _, _ => none

mutual

/-- JS `String(v)` for a parsed JSON value, as the `Error` constructor applies
it to a non-string message. -/
def jsToString : Json → String
  | .null => "null"
  | .bool true => "true"
  | .bool false => "false"
  | .num n => ⟨intChars n⟩
  | .str s => s
  | .arr xs => ⟨jsArrJoin xs⟩
  | .obj _ => "[object Object]"

/-- JS `Array.prototype.join(',')` over stringified elements; `null` elements
render empty. -/
def jsArrJoin : List Json → List Char
  | [] => []
  | [.null] => []
  | [x] => (jsToString x).data
  | .null :: xs => ',' :: jsArrJoin xs
  | x :: xs => (jsToString x).data ++ ',' :: jsArrJoin xs

end

/-! ## The classified error taxonomy

The classes live in `src/utils/errors.ts`, which the provided sources import
but do not contain.  Each constructor mirrors one class and the arguments its
call sites pass; every class extends `Error`, so each carries a message. -/

/-- Modelled from the spec: the error taxonomy of §7 (`utils/errors.ts` is not
among the provided sources).  `AuthenticationError`, `RateLimitError` (carrying
retry-after seconds) and `QdrantApiError` (carrying the HTTP status) are the
classes the client constructs; `ConfigurationError` is the spec's
before-any-IO configuration failure class; `generic` is a plain JS `Error`. -/
inductive QdrantError where
  | authentication (message : String)
  | rateLimit (message : String) (retryAfter : JsNum)
  | api (message : String) (status : Nat)
  | configuration (message : String)
  | generic (message : String)
deriving DecidableEq

/-- The `Error.message` every class carries. -/
def QdrantError.message : QdrantError → String
  | .authentication m => m
  | .rateLimit m _ => m
  | .api m _ => m
  | .configuration m => m
  | .generic m => m

/-- Whether an error is the spec's `ConfigurationError`. -/
def QdrantError.isConfiguration : QdrantError → Bool
  | .configuration _ => true
  | _ => false

/-! ## The shared request routine (`QdrantClientImpl.request`) -/

/-- The HTTP response the mocked `fetch` resolves with: a status code, a
header lookup, and the outcome of reading the body as text (`Except.error`
models a body read that throws). -/
structure HttpResponse where
  status : Nat
  headers : String → Option String
  body : Except String String

/-- What a successful `request` call resolves with: `undefined` (the 204
branch), the raw body text (the `text/plain` branch), or the unwrapped
`result` field of the JSON envelope (possibly `undefined` when absent). -/
inductive ReqResult where
  | undef
  | text (s : String)
  | json (v : Option Json)

/-- The retry-after value a 429 produces:
`retryAfter ? parseInt(retryAfter, 10) : 60` over the `Retry-After` header. -/
def retryAfterValue (h : Option String) : JsNum :=
  match h with
  | some s => if s ≠ "" then jsParseInt s else .int 60
  | none => .int 60

/-- One candidate of the `a || b || c` message chain: kept (stringified by the
`Error` constructor) when present and truthy, skipped otherwise. -/
def candidateMessage : Option Json → Option String
  | some m => if m.truthy then some (jsToString m) else none
  | none => none

/-- The error-body message extraction of `request` (source lines 226–235):
read the body text, try `JSON.parse`, take the first truthy of
`status.error`, `message`, `error`, else the generic `API error: <status>`
message; a parse failure is swallowed and yields the generic message. -/
def extractApiMessage (body : String) (status : Nat) : String :=
  let dflt := "API error: " ++ toString status
  match jsonParse body with
  | none => dflt
  | some v =>
    match candidateMessage ((v.getField "status").bind (fun sv => sv.getField "error")) with
    | some m => m
    | none =>
      match candidateMessage (v.getField "message") with
      | some m => m
      | none =>
        match candidateMessage (v.getField "error") with
        | some m => m
        | none => dflt

/-- Classification of a fetched response (source lines 214–250), in source
order: 429, then 401/403, then any other non-2xx, then 204, then the
`text/plain` content type, then the JSON envelope unwrap. -/
def handleResponse (resp : HttpResponse) : Except QdrantError ReqResult :=
  if resp.status = 429 then
    .error (.rateLimit "Rate limit exceeded" (retryAfterValue (resp.headers "Retry-After")))
  else if resp.status = 401 ∨ resp.status = 403 then
    .error (.authentication "Authentication failed. Check your API key.")
  else if ¬(200 ≤ resp.status ∧ resp.status ≤ 299) then
    match resp.body with
    | .error e => .error (.generic e)
    | .ok s => .error (.api (extractApiMessage s resp.status) resp.status)
  else if resp.status = 204 then
    .ok .undef
  else
    let ct := (resp.headers "Content-Type").getD ""
    if jsIncludes ct "text/plain" then
      match resp.body with
      | .error e => .error (.generic e)
      | .ok s => .ok (.text s)
    else
      match resp.body with
      | .error e => .error (.generic e)
      | .ok s =>
        match jsonParse s with
        | some v => .ok (.json (v.getField "result"))
        | none => .error (.generic "Unexpected token in JSON")

/-- The shared request routine (source lines 199–251), which every endpoint
method delegates to: an empty bound base URL throws before any network I/O;
otherwise exactly one fetch of the mocked response happens and its outcome is
classified.  The second component counts fetch calls. -/
def request (baseUrl endpoint : String) (resp : HttpResponse) :
    Except QdrantError ReqResult × Nat :=
  if baseUrl = "" then
    (.error (.authentication "No Qdrant URL provided. Set X-Qdrant-Base-URL header."), 0)
  else
    let _url := baseUrl ++ endpoint
    (handleResponse resp, 1)

/-! ## Tenant credentials (`src/types/env.ts`) -/

/-- Per-tenant credentials parsed from request headers; `none` is JS
`undefined`. -/
structure TenantCredentials where
  apiKey : Option String
  baseUrl : Option String
deriving DecidableEq

/-- JS `headers.get(name) || undefined`: `null` and the empty string both
collapse to `undefined`. -/
def jsOrUndef (v : Option String) : Option String :=
  match v with
  | some s => if s = "" then none else some s
  | none => none

/-- `parseTenantCredentials`: read the two credential headers, mapping each
through `|| undefined`. -/
def parseTenantCredentials (headers : String → Option String) : TenantCredentials :=
  { apiKey := jsOrUndef (headers "X-Qdrant-API-Key"),
    baseUrl := jsOrUndef (headers "X-Qdrant-Base-URL") }

/-- JS truthiness of an optional string (`undefined` and `""` are falsy). -/
def truthyOptStr (v : Option String) : Bool :=
  match v with
  | some s => s ≠ ""
  | none => false

/-- `validateCredentials`: throw a plain `Error` for a missing API key, then
for a missing base URL, else return. -/
def validateCredentials (c : TenantCredentials) : Except QdrantError Unit :=
  if ¬ truthyOptStr c.apiKey then
    .error (.generic "Missing credentials. Provide X-Qdrant-API-Key header.")
  else if ¬ truthyOptStr c.baseUrl then
    .error (.generic "Missing Qdrant URL. Provide X-Qdrant-Base-URL header (e.g., https://your-cluster.qdrant.io:6333).")
  else .ok ()

/-- The constructor's `this.baseUrl = credentials.baseUrl || ''`. -/
def clientBaseUrl (c : TenantCredentials) : String :=
  match c.baseUrl with
  | some s => s
  | none => ""

/-! ## The connectivity-test composite (`testConnection`) -/

/-- The `/` endpoint's version payload (`VersionInfo` in `types/qdrant.ts`). -/
structure VersionInfo where
  title : String
  version : String
  commit : Option String

/-- The structured result `testConnection` resolves with. -/
structure ConnectionTestResult where
  connected : Bool
  message : String
deriving DecidableEq

/-- `testConnection` (source lines 257–270) as a function of the outcome of
the underlying `getVersion` call: success maps to a connected result, any
thrown error is absorbed into `{connected: false, message}`.  Everything the
request routine can throw is an `Error`, so the `instanceof Error` branch of
the source is the one taken. -/
def testConnection (versionResult : Except QdrantError VersionInfo) :
    ConnectionTestResult :=
  match versionResult with
  | .ok v => ⟨true, "Connected to Qdrant " ++ v.version⟩
  | .error e => ⟨false, e.message⟩

/-! ## Percent-encoding of path segments -/

/-- UTF-8 bytes of one Unicode scalar value. -/
def utf8EncodeChar (n : Nat) : List Nat :=
  if n < 0x80 then [n]
  else if n < 0x800 then [0xC0 + n / 64, 0x80 + n % 64]
  else if n < 0x10000 then [0xE0 + n / 4096, 0x80 + n / 64 % 64, 0x80 + n % 64]
  else [0xF0 + n / 262144, 0x80 + n / 4096 % 64, 0x80 + n / 64 % 64, 0x80 + n % 64]

/-- UTF-8 bytes of a character list. -/
def utf8Bytes : List Char → List Nat
  | [] => []
  | c :: cs => utf8EncodeChar c.toNat ++ utf8Bytes cs

/-- The bytes `encodeURIComponent` leaves unescaped:
`A–Z a–z 0–9 - _ . ! ~ * ' ( )`. -/
def isUnreservedByte (b : Nat) : Bool :=
  (65 ≤ b && b ≤ 90) || (97 ≤ b && b ≤ 122) || (48 ≤ b && b ≤ 57) ||
  b = 45 || b = 95 || b = 46 || b = 33 || b = 126 || b = 42 || b = 39 ||
  b = 40 || b = 41

/-- Uppercase hex digit character, as percent-escapes use. -/
def hexCharUpper (d : Nat) : Char :=
  if d < 10 then Char.ofNat (48 + d) else Char.ofNat (55 + d)

/-- Percent-encode a byte sequence, keeping unreserved bytes literal. -/
def percentEncodeBytes : List Nat → List Char
  | [] => []
  | b :: bs =>
    (if isUnreservedByte b then [Char.ofNat b]
     else ['%', hexCharUpper (b / 16), hexCharUpper (b % 16)]) ++
    percentEncodeBytes bs

/-- JS `encodeURIComponent`: UTF-8 encode, then percent-encode every byte
outside the unreserved set. -/
def encodeURIComponent (s : String) : String :=
  ⟨percentEncodeBytes (utf8Bytes s.data)⟩

/-- Percent-decode to a byte sequence: `%XX` runs become bytes, literal
characters contribute their UTF-8 bytes; a malformed escape fails (JS throws
`URIError`). -/
def percentDecodeBytes : List Char → Option (List Nat)
  | [] => some []
  | c :: rest =>
    if c = '%' then
      match rest with
      | a :: b :: rest2 => do
        let x ← hexDigitVal a
        let y ← hexDigitVal b
        let bs ← percentDecodeBytes rest2
        return (x * 16 + y) :: bs
      | _ => none
    else (percentDecodeBytes rest).map (utf8EncodeChar c.toNat ++ ·)

/-- Strict UTF-8 decoding of one scalar value: rejects continuation-byte
leads, overlong forms, surrogates and out-of-range values (JS throws
`URIError` on any of these). -/
def utf8DecodeOne : List Nat → Option (Nat × List Nat)
  | [] => none
  | b :: rest =>
    if b < 0x80 then some (b, rest)
    else if b < 0xC2 then none
    else if b < 0xE0 then
      match rest with
      | b2 :: r =>
        if 0x80 ≤ b2 && b2 < 0xC0 then some ((b - 0xC0) * 64 + (b2 - 0x80), r)
        else none
      | [] => none
    else if b < 0xF0 then
      match rest with
      | b2 :: b3 :: r =>
        if (0x80 ≤ b2 && b2 < 0xC0) && (0x80 ≤ b3 && b3 < 0xC0) then
          let n := (b - 0xE0) * 4096 + (b2 - 0x80) * 64 + (b3 - 0x80)
          if n < 0x800 || (0xD800 ≤ n && n < 0xE000) then none else some (n, r)
        else none
      | _ => none
    else if b < 0xF5 then
      match rest with
      | b2 :: b3 :: b4 :: r =>
        if (0x80 ≤ b2 && b2 < 0xC0) && (0x80 ≤ b3 && b3 < 0xC0) &&
            (0x80 ≤ b4 && b4 < 0xC0) then
          let n := (b - 0xF0) * 262144 + (b2 - 0x80) * 4096 +
                   (b3 - 0x80) * 64 + (b4 - 0x80)
          if n < 0x10000 || 0x110000 ≤ n then none else some (n, r)
        else none
      | _ => none
    else none

/-- Decode a whole byte sequence to characters (fuelled; each step consumes at
least one byte, so `length + 1` fuel always suffices). -/
def utf8DecodeAll : Nat → List Nat → Option (List Char)
  | _, [] => some []
  | 0, _ => none
  | fuel + 1, bs =>
    match utf8DecodeOne bs with
    | none => none
    | some (n, r) => (utf8DecodeAll fuel r).map (Char.ofNat n :: ·)

/-- JS `decodeURIComponent`: percent-decode to bytes, then UTF-8 decode. -/
def decodeURIComponent (s : String) : Option String := do
  let bs ← percentDecodeBytes s.data
  let cs ← utf8DecodeAll (bs.length + 1) bs
  return ⟨cs⟩

/-! ## Endpoint request construction -/

/-- The HTTP request an endpoint method hands to `fetch`: method, relative
path (query string included) and optional serialized JSON body. -/
structure RequestDescriptor where
  method : String
  path : String
  body : Option (List Char)

/-- Qdrant point ids are strings or numbers. -/
abbrev PointId := Sum String Int

/-- JS `String(id)` over a point id. -/
def pointIdString : PointId → String
  | .inl s => s
  | .inr n => ⟨intChars n⟩

/-- `createCollection` (source lines 318–324):
`PUT /collections/<encoded name>` with the serialized config as body. -/
def createCollection (collectionName : String) (config : Json) : RequestDescriptor :=
  { method := "PUT",
    path := "/collections/" ++ encodeURIComponent collectionName,
    body := some (jsonStringify config) }

/-- `getPoint` (source lines 400–404):
`GET /collections/<encoded name>/points/<encoded String(id)>`. -/
def getPoint (collectionName : String) (id : PointId) : RequestDescriptor :=
  { method := "GET",
    path := "/collections/" ++ encodeURIComponent collectionName ++
            "/points/" ++ encodeURIComponent (pointIdString id),
    body := none }

/-- The body object `createFieldIndex` serializes (source lines 849–852):
`{ field_name: fieldName, ...request }` — the literal `field_name` first, then
the spread of the optional request object, whose own `field_name` (if any)
overwrites in place. -/
def createFieldIndexBody (fieldName : String)
    (request : Option (List (String × Json))) : List (String × Json) :=
  (request.getD []).foldl (fun acc kv => objInsert acc kv.1 kv.2)
    [("field_name", .str fieldName)]

/-- `createFieldIndex` (source lines 839–855):
`PUT /collections/<encoded name>/index?wait=<wait>` with the merged body. -/
def createFieldIndex (collectionName fieldName : String)
    (request : Option (List (String × Json))) (wait : Bool) : RequestDescriptor :=
  { method := "PUT",
    path := "/collections/" ++ encodeURIComponent collectionName ++
            "/index?wait=" ++ (if wait then "true" else "false"),
    body := some (jsonStringify (.obj (createFieldIndexBody fieldName request))) }

/-! ## Well-formedness of JS-originated values

A JS object can never hold two members with the same key, so every value the
adapter is handed to serialize is duplicate-free at every level. -/

/-- Pairwise-distinct member keys at one level. -/
def nodupKeys : List (String × Json) → Bool
  | [] => true
  | (k, _) :: fs => !(fs.any (fun kv => kv.1 = k)) && nodupKeys fs

mutual

/-- A value that a JS object graph can denote: member keys are
duplicate-free, recursively. -/
def Json.wf : Json → Bool
  | .null => true
  | .bool _ => true
  | .num _ => true
  | .str _ => true
  | .arr xs => wfElems xs
  | .obj fs => wfMembers fs

/-- `Json.wf` on every array element. -/
def wfElems : List Json → Bool
  | [] => true
  | x :: xs => Json.wf x && wfElems xs

/-- Duplicate-free keys and `Json.wf` values down a member list. -/
def wfMembers : List (String × Json) → Bool
  | [] => true
  | (k, v) :: fs => !(fs.any (fun kv => kv.1 = k)) && Json.wf v && wfMembers fs

end

/-- A context that cannot extend a serialized number: empty input, or a head
character that is neither a digit nor `.`/`e`/`E`.  Every position where
`jsonStringify` emits a number is followed by such a context. -/
def numBoundary : List Char → Bool
  | [] => true
  | c :: _ => !(isDigitChar c || c = '.' || c = 'e' || c = 'E')

/-! ## Claim C1 — 429 handling -/

/-- C1 (counterexample): the claim says retry-after equals 60 whenever the
`Retry-After` header is non-numeric, but a present non-empty non-numeric
header (`"abc"`) makes `parseInt` return `NaN`, which the code stores as-is:
the carried retry-after is `NaN`, not 60. -/
theorem c1_counterexample :
    handleResponse ⟨429, (fun k => if k = "Retry-After" then some "abc" else none), .ok ""⟩ =
      .error (.rateLimit "Rate limit exceeded" .nan) ∧
    JsNum.nan ≠ JsNum.int 60 :=
  ⟨rfl, by decide⟩

/-- C1 (amended): through the shared routine, every 429 response fails with
`RateLimitError` carrying `retryAfterValue` of the `Retry-After` header, which
equals 60 when the header is absent or empty and `parseInt(header, 10)` (an
integer, or `NaN` for a non-numeric value) when the header is present and
non-empty. -/
theorem c1_rate_limit (baseUrl endpoint : String) (resp : HttpResponse)
    (hb : baseUrl ≠ "") (h429 : resp.status = 429) :
    (request baseUrl endpoint resp).1 =
      .error (.rateLimit "Rate limit exceeded"
        (retryAfterValue (resp.headers "Retry-After"))) ∧
    (resp.headers "Retry-After" = none →
      retryAfterValue (resp.headers "Retry-After") = .int 60) ∧
    (resp.headers "Retry-After" = some "" →
      retryAfterValue (resp.headers "Retry-After") = .int 60) ∧
    (∀ h : String, h ≠ "" → resp.headers "Retry-After" = some h →
      retryAfterValue (resp.headers "Retry-After") = jsParseInt h) := by
  refine ⟨?_, ?_, ?_, ?_⟩
  · simp only [request, if_neg hb]
    simp [handleResponse, h429]
  · intro h; rw [h]; rfl
  · intro h; rw [h]; rfl
  · intro h hne hh; rw [hh]; simp [retryAfterValue, hne]

/-- C1 (witness): a concrete 429 with `Retry-After: 7` fails with
`RateLimitError` carrying 7. -/
theorem c1_witness :
    (request "http://q" "/collections"
      ⟨429, (fun k => if k = "Retry-After" then some "7" else none), .ok ""⟩).1 =
      .error (.rateLimit "Rate limit exceeded" (.int 7)) :=
  (c1_rate_limit "http://q" "/collections"
    ⟨429, (fun k => if k = "Retry-After" then some "7" else none), .ok ""⟩
    (by decide) rfl).1

/-! ## Claim C2 — empty base URL -/

/-- C2 (counterexample): with an empty bound base URL the call does fail
before any fetch, but the thrown error is the code's `AuthenticationError`
(`No Qdrant URL provided. Set X-Qdrant-Base-URL header.`), not the spec's
`ConfigurationError`. -/
theorem c2_counterexample :
    (request "" "/collections" ⟨200, (fun _ => none), .ok ""⟩).1 =
      .error (.authentication "No Qdrant URL provided. Set X-Qdrant-Base-URL header.") ∧
    (request "" "/collections" ⟨200, (fun _ => none), .ok ""⟩).2 = 0 ∧
    QdrantError.isConfiguration
      (.authentication "No Qdrant URL provided. Set X-Qdrant-Base-URL header.") = false :=
  ⟨rfl, rfl, rfl⟩

/-- C2 (amended): when the bound base URL is empty, every call through the
shared routine throws `AuthenticationError` (carrying the missing-URL
message) and the network-call count stays zero, whatever response the network
would have produced. -/
theorem c2_empty_base_url (endpoint : String) (resp : HttpResponse) :
    request "" endpoint resp =
      (.error (.authentication "No Qdrant URL provided. Set X-Qdrant-Base-URL header."), 0) :=
  rfl

/-! ## Claim C4 — credential validation -/

/-- C4 (counterexample): with both credentials absent, `validateCredentials`
throws on the API key check alone: the message is a plain `Error` naming only
`X-Qdrant-API-Key`, it does not name `X-Qdrant-Base-URL`, and it is not a
`ConfigurationError`. -/
theorem c4_counterexample :
    validateCredentials ⟨none, none⟩ =
      .error (.generic "Missing credentials. Provide X-Qdrant-API-Key header.") ∧
    jsIncludes "Missing credentials. Provide X-Qdrant-API-Key header."
      "X-Qdrant-Base-URL" = false ∧
    QdrantError.isConfiguration
      (.generic "Missing credentials. Provide X-Qdrant-API-Key header.") = false :=
  ⟨rfl, rfl, rfl⟩

/-- C4 (amended): `validateCredentials` throws a plain `Error` naming the
first missing header — the API key is checked first, so only one header is
ever named — treating a present-but-empty value as missing; it returns
without error exactly when both fields are present and non-empty. -/
theorem c4_validate_credentials (c : TenantCredentials) :
    (truthyOptStr c.apiKey = false →
      validateCredentials c =
        .error (.generic "Missing credentials. Provide X-Qdrant-API-Key header.")) ∧
    (truthyOptStr c.apiKey = true → truthyOptStr c.baseUrl = false →
      validateCredentials c =
        .error (.generic "Missing Qdrant URL. Provide X-Qdrant-Base-URL header (e.g., https://your-cluster.qdrant.io:6333).")) ∧
    (truthyOptStr c.apiKey = true → truthyOptStr c.baseUrl = true →
      validateCredentials c = .ok ()) ∧
    jsIncludes "Missing credentials. Provide X-Qdrant-API-Key header."
      "X-Qdrant-API-Key" = true ∧
    jsIncludes "Missing Qdrant URL. Provide X-Qdrant-Base-URL header (e.g., https://your-cluster.qdrant.io:6333)."
      "X-Qdrant-Base-URL" = true := by
  refine ⟨?_, ?_, ?_, rfl, rfl⟩
  · intro h; simp [validateCredentials, h]
  · intro h1 h2; simp [validateCredentials, h1, h2]
  · intro h1 h2; simp [validateCredentials, h1, h2]

/-- C4 (witness): concrete, non-empty credentials validate without error. -/
theorem c4_witness : validateCredentials ⟨some "key", some "http://q"⟩ = .ok () :=
  (c4_validate_credentials ⟨some "key", some "http://q"⟩).2.2.1 (by decide) (by decide)

/-! ## Claim C5 — absent headers in credential resolution -/

/-- C5 (counterexample): a headers map that supplies the API-key header with
the empty-string value resolves to exactly the same credentials as one that
never sets it (both map to `undefined`), so downstream logic cannot
distinguish unset from supplied-empty. -/
theorem c5_counterexample :
    parseTenantCredentials (fun k => if k = "X-Qdrant-API-Key" then some "" else none) =
      parseTenantCredentials (fun _ => none) ∧
    (parseTenantCredentials (fun _ => none)).apiKey = none :=
  ⟨rfl, rfl⟩

/-- C5 (amended): `parseTenantCredentials` maps an absent header to
`undefined` (a state distinct from the empty string), but it maps a header
supplied with the empty-string value to `undefined` as well — `get(...) ||
undefined` conflates the two — keeping only present non-empty values. -/
theorem c5_resolve_headers (headers : String → Option String) :
    (headers "X-Qdrant-API-Key" = none →
      (parseTenantCredentials headers).apiKey = none) ∧
    (headers "X-Qdrant-API-Key" = some "" →
      (parseTenantCredentials headers).apiKey = none) ∧
    (∀ s : String, s ≠ "" → headers "X-Qdrant-API-Key" = some s →
      (parseTenantCredentials headers).apiKey = some s) ∧
    (headers "X-Qdrant-Base-URL" = none →
      (parseTenantCredentials headers).baseUrl = none) ∧
    (headers "X-Qdrant-Base-URL" = some "" →
      (parseTenantCredentials headers).baseUrl = none) ∧
    (∀ s : String, s ≠ "" → headers "X-Qdrant-Base-URL" = some s →
      (parseTenantCredentials headers).baseUrl = some s) := by
  refine ⟨?_, ?_, ?_, ?_, ?_, ?_⟩ <;>
    first
      | (intro h; simp [parseTenantCredentials, jsOrUndef, h])
      | (intro s hs h; simp [parseTenantCredentials, jsOrUndef, h, hs])

/-- C5 (witness): a concrete headers map with a non-empty API key resolves to
that key. -/
theorem c5_witness :
    (parseTenantCredentials
      (fun k => if k = "X-Qdrant-API-Key" then some "key" else none)).apiKey =
      some "key" :=
  (c5_resolve_headers
    (fun k => if k = "X-Qdrant-API-Key" then some "key" else none)).2.2.1
    "key" (by decide) rfl

/-! ## Claim C3 — generic API error extraction -/

/-- C3 (counterexample): the claim takes `status.error` whenever the field is
present, but the code's `||` chain skips falsy values: on a 500 body where
`status.error` is present as the empty string and `message` is `"boom"`, the
thrown `ApiError` carries `"boom"`, not the present `status.error` value. -/
theorem c3_counterexample :
    handleResponse ⟨500, (fun _ => none),
        .ok "\x7b\"status\":\x7b\"error\":\"\"\x7d,\"message\":\"boom\"\x7d"⟩ =
      .error (.api "boom" 500) ∧
    (jsonParse "\x7b\"status\":\x7b\"error\":\"\"\x7d,\"message\":\"boom\"\x7d").bind
        (fun v => (v.getField "status").bind (fun sv => sv.getField "error")) =
      some (.str "") ∧
    "boom" ≠ "" :=
  ⟨rfl, rfl, by decide⟩

/-- C3 (amended): every response whose status is non-2xx and none of 401, 403
or 429 fails with `ApiError` carrying the status and the message extracted
from the body text: the first *truthy* (present and non-empty/non-zero/
non-null) of `status.error`, `message`, `error` in that priority order, else
the `API error: <status>` fallback, which a JSON-parse failure of the error
body also yields (the parse failure is swallowed).  In particular
`getPoint('docs', 42)` issues `GET /collections/docs/points/42`, and a 404
with body `{"status":{"error":"Not found"}}` yields `ApiError` with message
`Not found` and status 404. -/
theorem c3_api_error (resp : HttpResponse) (s : String)
    (h1 : resp.status ≠ 429) (h2 : resp.status ≠ 401) (h3 : resp.status ≠ 403)
    (h4 : ¬(200 ≤ resp.status ∧ resp.status ≤ 299)) (hb : resp.body = .ok s) :
    handleResponse resp = .error (.api (extractApiMessage s resp.status) resp.status) ∧
    (jsonParse s = none →
      extractApiMessage s resp.status = "API error: " ++ toString resp.status) ∧
    (∀ v : Json, jsonParse s = some v →
      extractApiMessage s resp.status =
        (candidateMessage ((v.getField "status").bind (fun sv => sv.getField "error"))).getD
          ((candidateMessage (v.getField "message")).getD
            ((candidateMessage (v.getField "error")).getD
              ("API error: " ++ toString resp.status)))) ∧
    getPoint "docs" (.inr 42) = ⟨"GET", "/collections/docs/points/42", none⟩ ∧
    handleResponse ⟨404, (fun _ => none), .ok "\x7b\"status\":\x7b\"error\":\"Not found\"\x7d\x7d"⟩ =
      .error (.api "Not found" 404) := by
  refine ⟨?_, ?_, ?_, by rfl, by rfl⟩
  · simp only [handleResponse]
    rw [if_neg h1, if_neg (not_or.mpr ⟨h2, h3⟩), if_pos h4, hb]
  · intro hp; simp [extractApiMessage, hp]
  · intro v hv
    simp only [extractApiMessage, hv]
    cases hc1 : candidateMessage ((v.getField "status").bind (fun sv => sv.getField "error")) with
    | some m => simp [hc1]
    | none =>
      cases hc2 : candidateMessage (v.getField "message") with
      | some m => simp [hc1, hc2]
      | none =>
        cases hc3 : candidateMessage (v.getField "error") with
        | some m => simp [hc1, hc2, hc3]
        | none => simp [hc1, hc2, hc3]

/-- C3 (witness): the claim's own scenario, instantiating the amended
theorem: a 404 with body `{"status":{"error":"Not found"}}` yields `ApiError`
with message `Not found` and status 404. -/
theorem c3_witness :
    handleResponse ⟨404, (fun _ => none), .ok "\x7b\"status\":\x7b\"error\":\"Not found\"\x7d\x7d"⟩ =
      .error (.api "Not found" 404) :=
  (c3_api_error ⟨404, (fun _ => none), .ok "\x7b\"status\":\x7b\"error\":\"Not found\"\x7d\x7d"⟩
    "\x7b\"status\":\x7b\"error\":\"Not found\"\x7d\x7d"
    (by decide) (by decide) (by decide) (by decide) rfl).1

/-! ## Claim C6 — 2xx body handling -/

/-- C6: every 2xx response other than 204 returns the raw body text exactly
when the `Content-Type` contains `text/plain`; otherwise the body is parsed as
the JSON envelope and the call returns exactly its `result` field (absent
when the envelope lacks one, a propagated parse error when the body is not
JSON), never the raw body text. -/
theorem c6_success_body (resp : HttpResponse) (s : String)
    (hok : 200 ≤ resp.status ∧ resp.status ≤ 299) (h204 : resp.status ≠ 204)
    (hb : resp.body = .ok s) :
    (jsIncludes ((resp.headers "Content-Type").getD "") "text/plain" = true →
      handleResponse resp = .ok (.text s)) ∧
    (jsIncludes ((resp.headers "Content-Type").getD "") "text/plain" = false →
      (∀ v : Json, jsonParse s = some v →
        handleResponse resp = .ok (.json (v.getField "result"))) ∧
      (jsonParse s = none →
        handleResponse resp = .error (.generic "Unexpected token in JSON")) ∧
      handleResponse resp ≠ .ok (.text s)) := by
  have h1 : resp.status ≠ 429 := by omega
  have h2 : resp.status ≠ 401 := by omega
  have h3 : resp.status ≠ 403 := by omega
  constructor
  · intro hct
    simp [handleResponse, h1, h2, h3, hok.1, hok.2, h204, hct, hb]
  · intro hct
    refine ⟨?_, ?_, ?_⟩
    · intro v hv
      simp [handleResponse, h1, h2, h3, hok.1, hok.2, h204, hct, hb, hv]
    · intro hv
      simp [handleResponse, h1, h2, h3, hok.1, hok.2, h204, hct, hb, hv]
    · simp only [handleResponse]
      simp [h1, h2, h3, hok.1, hok.2, h204, hct, hb]
      cases hv : jsonParse s <;> simp [hv]

/-- C6 (witness): a concrete 200 JSON envelope response returns exactly its
`result` field. -/
theorem c6_witness :
    handleResponse ⟨200,
        (fun k => if k = "Content-Type" then some "application/json" else none),
        .ok "\x7b\"result\":true,\"status\":\"ok\",\"time\":0\x7d"⟩ =
      .ok (.json (some (.bool true))) :=
  ((c6_success_body ⟨200,
      (fun k => if k = "Content-Type" then some "application/json" else none),
      .ok "\x7b\"result\":true,\"status\":\"ok\",\"time\":0\x7d"⟩
    "\x7b\"result\":true,\"status\":\"ok\",\"time\":0\x7d"
    (by decide) (by decide) rfl).2 rfl).1
    (.obj [("result", .bool true), ("status", .str "ok"), ("time", .num 0)]) rfl

/-! ## Claim C7 — 204 handling -/

/-- C7: a 204 response resolves to an absent (`undefined`) result through the
response classification every endpoint method shares, for every response
body value — in particular for one whose body-read operation throws — so the
body is never read and the call never throws. -/
theorem c7_no_content (resp : HttpResponse) (h : resp.status = 204) :
    handleResponse resp = .ok .undef := by
  simp [handleResponse, h]

/-- C7 (witness): a concrete 204 response whose body read throws still
resolves to the absent result. -/
theorem c7_witness :
    handleResponse ⟨204, (fun _ => none), .error "body read throws"⟩ = .ok .undef :=
  c7_no_content ⟨204, (fun _ => none), .error "body read throws"⟩ rfl

/-! ## Claim C8 — the connectivity-test composite -/

/-- C8: `testConnection` never propagates an error: every error the
version-info call throws is absorbed into `{connected: false, message: <the
error's message>}`, and a successful version-info call yields
`{connected: true}` with the version message. -/
theorem c8_test_connection :
    (∀ e : QdrantError, testConnection (.error e) = ⟨false, e.message⟩) ∧
    (∀ v : VersionInfo,
      testConnection (.ok v) = ⟨true, "Connected to Qdrant " ++ v.version⟩) :=
  ⟨fun _ => rfl, fun _ => rfl⟩

/-! ## Percent-encoding inverts (towards claim C9) -/

theorem toNat_ofNat_valid {n : Nat} (h : n.isValidChar) : (Char.ofNat n).toNat = n := by
  simp [Char.ofNat, h, Char.toNat, Char.ofNatAux, UInt32.toNat, BitVec.toNat_ofNatLt]

theorem char_toNat_validChar (c : Char) : c.toNat.isValidChar := by
  have h := c.valid
  simpa [UInt32.isValidChar] using h

theorem char_toNat_lt (c : Char) : c.toNat < 0x110000 := by
  have h := char_toNat_validChar c
  rcases h with h | h <;> omega

theorem hexDigitVal_hexCharUpper (d : Nat) (h : d < 16) :
    hexDigitVal (hexCharUpper d) = some d := by
  interval_cases d <;> decide

theorem isUnreservedByte_lt (b : Nat) (h : isUnreservedByte b = true) : b < 128 := by
  simp only [isUnreservedByte, Bool.or_eq_true, Bool.and_eq_true,
    decide_eq_true_eq] at h
  rcases h with ((((((((((h | h) | h) | h) | h) | h) | h) | h) | h) | h) | h) <;> omega

theorem unreserved_ne_percent (b : Nat) (h : isUnreservedByte b = true) :
    Char.ofNat b ≠ '%' := by
  intro he
  have hlt : b < 128 := isUnreservedByte_lt b h
  have ht : (Char.ofNat b).toNat = b := toNat_ofNat_valid (Or.inl (by omega))
  rw [he] at ht
  have hb : b = 37 := by simpa using ht.symm
  rw [hb] at h
  exact absurd h (by decide)

theorem utf8EncodeChar_byte_lt (n : Nat) (hn : n < 0x110000) :
    ∀ b ∈ utf8EncodeChar n, b < 256 := by
  intro b hb
  unfold utf8EncodeChar at hb
  split_ifs at hb <;> simp at hb <;> omega

theorem utf8EncodeChar_length_pos (n : Nat) : 0 < (utf8EncodeChar n).length := by
  unfold utf8EncodeChar
  split_ifs <;> simp

theorem utf8Bytes_lt (cs : List Char) : ∀ b ∈ utf8Bytes cs, b < 256 := by
  induction cs with
  | nil => intro b hb; simp [utf8Bytes] at hb
  | cons c ct ih =>
    intro b hb
    simp only [utf8Bytes, List.mem_append] at hb
    rcases hb with hb | hb
    · exact utf8EncodeChar_byte_lt c.toNat (char_toNat_lt c) b hb
    · exact ih b hb

theorem percentDecode_encode (bs : List Nat) (h : ∀ b ∈ bs, b < 256) :
    percentDecodeBytes (percentEncodeBytes bs) = some bs := by
  induction bs with
  | nil => rfl
  | cons b bt ih =>
    have hb : b < 256 := h b (by simp)
    have ht := ih (fun x hx => h x (by simp [hx]))
    by_cases hu : isUnreservedByte b
    · have hlt : b < 128 := isUnreservedByte_lt b hu
      have hne : Char.ofNat b ≠ '%' := unreserved_ne_percent b hu
      have htn : (Char.ofNat b).toNat = b := toNat_ofNat_valid (Or.inl (by omega))
      have henc : percentEncodeBytes (b :: bt) =
          Char.ofNat b :: percentEncodeBytes bt := by
        simp [percentEncodeBytes, hu]
      have hdec : percentDecodeBytes (Char.ofNat b :: percentEncodeBytes bt) =
          (percentDecodeBytes (percentEncodeBytes bt)).map
            (utf8EncodeChar (Char.ofNat b).toNat ++ ·) := by
        rw [percentDecodeBytes.eq_def]
        simp [hne]
      rw [henc, hdec, ht, htn]
      simp [utf8EncodeChar, show b < 0x80 by omega]
    · have henc : percentEncodeBytes (b :: bt) =
          '%' :: hexCharUpper (b / 16) :: hexCharUpper (b % 16) ::
            percentEncodeBytes bt := by
        simp [percentEncodeBytes, hu]
      rw [henc]
      rw [percentDecodeBytes.eq_def]
      simp [hexDigitVal_hexCharUpper (b / 16) (by omega : b / 16 < 16),
            hexDigitVal_hexCharUpper (b % 16) (by omega : b % 16 < 16), ht,
            show b / 16 * 16 + b % 16 = b from by omega]

theorem utf8DecodeOne_encode (n : Nat) (h : n.isValidChar) (rest : List Nat) :
    utf8DecodeOne (utf8EncodeChar n ++ rest) = some (n, rest) := by
  have hv : n < 0xd800 ∨ (0xdfff < n ∧ n < 0x110000) := h
  by_cases h1 : n < 0x80
  · simp only [utf8EncodeChar, if_pos h1, List.cons_append, List.nil_append]
    simp [utf8DecodeOne, h1]
  · by_cases h2 : n < 0x800
    · simp only [utf8EncodeChar, if_neg h1, if_pos h2, List.cons_append,
        List.nil_append]
      simp only [utf8DecodeOne]
      rw [if_neg (by omega), if_neg (by omega), if_pos (by omega)]
      rw [if_pos (by simp only [Bool.and_eq_true, decide_eq_true_eq]; omega)]
      have hval : (0xC0 + n / 64 - 0xC0) * 64 + (0x80 + n % 64 - 0x80) = n := by
        omega
      rw [hval]
    · by_cases h3 : n < 0x10000
      · have hns : ¬(0xd800 ≤ n ∧ n < 0xe000) := by omega
        simp only [utf8EncodeChar, if_neg h1, if_neg h2, if_pos h3,
          List.cons_append, List.nil_append]
        simp only [utf8DecodeOne]
        rw [if_neg (by omega), if_neg (by omega), if_neg (by omega),
            if_pos (by omega)]
        rw [if_pos (by simp only [Bool.and_eq_true, decide_eq_true_eq]; omega)]
        have hval : (0xE0 + n / 4096 - 0xE0) * 4096 +
            (0x80 + n / 64 % 64 - 0x80) * 64 + (0x80 + n % 64 - 0x80) = n := by
          omega
        rw [hval]
        rw [if_neg (by simp only [Bool.or_eq_true, Bool.and_eq_true,
          decide_eq_true_eq]; omega)]
      · have h4 : n < 0x110000 := by omega
        simp only [utf8EncodeChar, if_neg h1, if_neg h2, if_neg h3,
          List.cons_append, List.nil_append]
        simp only [utf8DecodeOne]
        rw [if_neg (by omega), if_neg (by omega), if_neg (by omega),
            if_neg (by omega), if_pos (by omega)]
        rw [if_pos (by simp only [Bool.and_eq_true, decide_eq_true_eq]; omega)]
        have hval : (0xF0 + n / 262144 - 0xF0) * 262144 +
            (0x80 + n / 4096 % 64 - 0x80) * 4096 +
            (0x80 + n / 64 % 64 - 0x80) * 64 + (0x80 + n % 64 - 0x80) = n := by
          omega
        rw [hval]
        rw [if_neg (by simp only [Bool.or_eq_true, decide_eq_true_eq]; omega)]

theorem utf8DecodeAll_encode (cs : List Char) :
    ∀ fuel, (utf8Bytes cs).length < fuel →
      utf8DecodeAll fuel (utf8Bytes cs) = some cs := by
  induction cs with
  | nil => intro fuel h; simp [utf8Bytes, utf8DecodeAll]
  | cons c ct ih =>
    intro fuel h
    have hpos := utf8EncodeChar_length_pos c.toNat
    cases fuel with
    | zero => omega
    | succ f =>
      have hlen : (utf8Bytes ct).length < f := by
        simp only [utf8Bytes, List.length_append] at h
        omega
      have hcons : ∃ b0 bt, utf8Bytes (c :: ct) = b0 :: bt := by
        cases hx : utf8Bytes (c :: ct) with
        | nil =>
          exfalso
          have : (utf8Bytes (c :: ct)).length = 0 := by rw [hx]; rfl
          simp only [utf8Bytes, List.length_append] at this
          omega
        | cons b0 bt => exact ⟨b0, bt, rfl⟩
      obtain ⟨b0, bt, hb⟩ := hcons
      rw [hb]
      simp only [utf8DecodeAll]
      rw [← hb]
      rw [show utf8Bytes (c :: ct) = utf8EncodeChar c.toNat ++ utf8Bytes ct from rfl,
          utf8DecodeOne_encode c.toNat (char_toNat_validChar c) (utf8Bytes ct)]
      simp [ih f hlen, Char.ofNat_toNat]

theorem decodeURIComponent_encodeURIComponent (s : String) :
    decodeURIComponent (encodeURIComponent s) = some s := by
  simp only [decodeURIComponent, encodeURIComponent]
  rw [percentDecode_encode (utf8Bytes s.data) (utf8Bytes_lt s.data)]
  simp [utf8DecodeAll_encode s.data ((utf8Bytes s.data).length + 1)
      (Nat.lt_succ_self _)]

/-! ## Decimal digits invert (towards claim C9) -/

theorem digitChar_toNat (d : Nat) (h : d < 10) : (digitChar d).toNat = 48 + d :=
  toNat_ofNat_valid (Or.inl (by omega))

theorem isDigitChar_digitChar (d : Nat) (h : d < 10) :
    isDigitChar (digitChar d) = true := by
  simp only [isDigitChar, digitChar_toNat d h, Bool.and_eq_true, decide_eq_true_eq]
  omega

theorem digitChar_ne_minus (d : Nat) (h : d < 10) : digitChar d ≠ '-' := by
  intro he
  have ht := digitChar_toNat d h
  rw [he] at ht
  simp at ht
  omega

theorem digitChar_ne_zero (d : Nat) (h0 : 0 < d) (h : d < 10) :
    digitChar d ≠ '0' := by
  intro he
  have ht := digitChar_toNat d h
  rw [he] at ht
  simp at ht
  omega

theorem natCharsAux_congr :
    ∀ n f1 f2, n < f1 → n < f2 → natCharsAux f1 n = natCharsAux f2 n := by
  intro n
  induction n using Nat.strong_induction_on with
  | _ n ih =>
    intro f1 f2 h1 h2
    cases f1 with
    | zero => omega
    | succ g1 =>
      cases f2 with
      | zero => omega
      | succ g2 =>
        simp only [natCharsAux]
        by_cases h10 : n < 10
        · simp [h10]
        · simp only [if_neg h10]
          rw [ih (n / 10) (by omega) g1 g2 (by omega) (by omega)]

theorem natChars_unfold (n : Nat) :
    natChars n = if n < 10 then [digitChar n]
                 else natChars (n / 10) ++ [digitChar (n % 10)] := by
  show natCharsAux (n + 1) n = _
  simp only [natCharsAux]
  by_cases h10 : n < 10
  · simp [h10]
  · simp only [if_neg h10]
    rw [natCharsAux_congr (n / 10) n (n / 10 + 1) (by omega) (by omega)]
    rfl

theorem natChars_all_digits (n : Nat) : ∀ c ∈ natChars n, isDigitChar c = true := by
  induction n using Nat.strong_induction_on with
  | _ n ih =>
    intro c hc
    by_cases h10 : n < 10
    · rw [natChars_unfold, if_pos h10] at hc
      simp at hc
      subst hc
      exact isDigitChar_digitChar n h10
    · rw [natChars_unfold, if_neg h10] at hc
      rcases List.mem_append.mp hc with h | h
      · exact ih (n / 10) (by omega) c h
      · simp at h
        subst h
        exact isDigitChar_digitChar (n % 10) (by omega)

theorem natChars_head (n : Nat) (h : 0 < n) :
    ∃ d t, natChars n = digitChar d :: t ∧ 0 < d ∧ d < 10 := by
  induction n using Nat.strong_induction_on with
  | _ n ih =>
    by_cases h10 : n < 10
    · exact ⟨n, [], by rw [natChars_unfold, if_pos h10], h, h10⟩
    · obtain ⟨d, t, hd, hd0, hd10⟩ := ih (n / 10) (by omega) (by omega)
      exact ⟨d, t ++ [digitChar (n % 10)],
        by rw [natChars_unfold, if_neg h10, hd]; rfl, hd0, hd10⟩

theorem foldl_natChars (n : Nat) : ∀ acc : Nat,
    (natChars n).foldl (fun a c => a * 10 + (c.toNat - 48)) acc =
      acc * 10 ^ (natChars n).length + n := by
  induction n using Nat.strong_induction_on with
  | _ n ih =>
    intro acc
    by_cases h10 : n < 10
    · rw [natChars_unfold, if_pos h10]
      simp only [List.foldl_cons, List.foldl_nil, List.length_cons,
        List.length_nil, digitChar_toNat n h10, pow_one, zero_add]
      omega
    · rw [natChars_unfold, if_neg h10]
      simp only [List.foldl_append, List.length_append, List.foldl_cons,
        List.foldl_nil, List.length_cons, List.length_nil]
      rw [ih (n / 10) (by omega) acc, digitChar_toNat (n % 10) (by omega),
          pow_succ, ← Nat.mul_assoc]
      generalize acc * 10 ^ (natChars (n / 10)).length = y
      omega

theorem digitsVal_natChars (n : Nat) : digitsVal (natChars n) = n := by
  have h := foldl_natChars n 0
  simpa [digitsVal] using h

theorem numBoundary_head (c : Char) (t : List Char) (h : numBoundary (c :: t) = true) :
    isDigitChar c = false ∧ c ≠ '.' ∧ c ≠ 'e' ∧ c ≠ 'E' := by
  simp only [numBoundary, Bool.not_eq_eq_eq_not, Bool.not_true, Bool.or_eq_false_iff,
    decide_eq_false_iff_not] at h
  exact ⟨h.1.1.1, h.1.1.2, h.1.2, h.2⟩

theorem takeDigits_boundary (cs : List Char) (h : numBoundary cs = true) :
    takeDigits cs = ([], cs) := by
  cases cs with
  | nil => rfl
  | cons c t =>
    have hd := (numBoundary_head c t h).1
    simp [takeDigits, hd]

theorem numContinues_boundary (cs : List Char) (h : numBoundary cs = true) :
    numContinues cs = false := by
  cases cs with
  | nil => rfl
  | cons c t =>
    obtain ⟨_, h1, h2, h3⟩ := numBoundary_head c t h
    simp [numContinues, h1, h2, h3]

theorem takeDigits_run (ds : List Char) (hds : ∀ c ∈ ds, isDigitChar c = true) :
    ∀ rest, takeDigits rest = ([], rest) →
      takeDigits (ds ++ rest) = (ds, rest) := by
  induction ds with
  | nil => intro rest hrest; simpa using hrest
  | cons c t ih =>
    intro rest hrest
    have hc := hds c (by simp)
    have ht := ih (fun x hx => hds x (by simp [hx])) rest hrest
    simp [takeDigits, hc, ht]

theorem parseNumber_natChars (m : Nat) (rest : List Char)
    (hr : numBoundary rest = true) :
    parseNumber (natChars m ++ rest) =
      some (.num ((m : Nat) : Int), rest) := by
  have hrest0 := takeDigits_boundary rest hr
  have hnc := numContinues_boundary rest hr
  have hrun := takeDigits_run (natChars m) (natChars_all_digits m) rest hrest0
  by_cases hm : m = 0
  · subst hm
    rw [show natChars 0 = ['0'] from by rw [natChars_unfold]; rfl] at hrun ⊢
    have hrun2 : takeDigits ('0' :: rest) = (['0'], rest) := by simpa using hrun
    simp only [List.cons_append, List.nil_append]
    simp [parseNumber, hrun2, hnc]
    rfl
  · obtain ⟨d, t, hd, hd0, hd10⟩ := natChars_head m (by omega)
    have hne : digitChar d ≠ '-' := digitChar_ne_minus d hd10
    have hnz : digitChar d ≠ '0' := digitChar_ne_zero d hd0 hd10
    have hds : digitsVal (digitChar d :: t) = m := by
      rw [← hd]; exact digitsVal_natChars m
    rw [hd] at hrun ⊢
    have hrun2 : takeDigits (digitChar d :: (t ++ rest)) = (digitChar d :: t, rest) := by
      simpa using hrun
    simp only [List.cons_append]
    simp [parseNumber, hne, hrun2, hnz, hnc, hds]

theorem parseNumber_intChars (n : Int) (rest : List Char)
    (hr : numBoundary rest = true) :
    parseNumber (intChars n ++ rest) = some (.num n, rest) := by
  by_cases hneg : n < 0
  · have hrest0 := takeDigits_boundary rest hr
    have hnc := numContinues_boundary rest hr
    have hrun := takeDigits_run (natChars n.natAbs)
      (natChars_all_digits n.natAbs) rest hrest0
    obtain ⟨d, t, hd, hd0, hd10⟩ := natChars_head n.natAbs (by omega)
    have hnz : digitChar d ≠ '0' := digitChar_ne_zero d hd0 hd10
    have hds : digitsVal (digitChar d :: t) = n.natAbs := by
      rw [← hd]; exact digitsVal_natChars n.natAbs
    rw [hd] at hrun
    have hrun2 : takeDigits (digitChar d :: (t ++ rest)) = (digitChar d :: t, rest) := by
      simpa using hrun
    rw [show intChars n = '-' :: natChars n.natAbs from by simp [intChars, hneg]]
    rw [hd]
    simp only [List.cons_append]
    have hn : -((n.natAbs : Nat) : Int) = n := by omega
    simp [parseNumber, hrun2, hnz, hnc, hds, hn]
    rw [abs_of_neg hneg, neg_neg]
  · rw [show intChars n = natChars n.natAbs from by simp [intChars, hneg]]
    rw [parseNumber_natChars n.natAbs rest hr]
    have hn : ((n.natAbs : Nat) : Int) = n := by omega
    rw [hn]

/-! ## String escaping inverts (towards claim C9) -/

theorem hexDigitVal_hexChar (d : Nat) (h : d < 16) :
    hexDigitVal (hexChar d) = some d := by
  interval_cases d <;> decide

theorem parseStrCharsF_quote (fuel : Nat) (rest : List Char) :
    parseStrCharsF (fuel + 1) ('"' :: rest) = some ([], rest) := by
  simp [parseStrCharsF]

theorem parseEscape_simple (e ch : Char) (he : simpleEscape e = some ch)
    (hu : e ≠ 'u') (rest2 : List Char) :
    parseEscape (e :: rest2) = some (ch, rest2) := by
  rw [parseEscape.eq_def]
  simp [hu, he]

theorem parseEscape_u (a b c2 d : Char) (n : Nat)
    (hh : hex4 a b c2 d = some n) (hlow : n < 0xD800) (rest3 : List Char) :
    parseEscape ('u' :: a :: b :: c2 :: d :: rest3) = some (Char.ofNat n, rest3) := by
  rw [parseEscape.eq_def]
  simp [hh, show ¬(0xD800 ≤ n ∧ n < 0xDC00) from by omega,
    show ¬(0xDC00 ≤ n ∧ n < 0xE000) from by omega]

theorem parseStrCharsF_escStep (fuel : Nat) (rest : List Char) (ch : Char)
    (r2 : List Char) (he : parseEscape rest = some (ch, r2)) :
    parseStrCharsF (fuel + 1) ('\\' :: rest) =
      (parseStrCharsF fuel r2).map fun p => (ch :: p.1, p.2) := by
  simp [parseStrCharsF, he]

theorem parseStrCharsF_raw (fuel : Nat) (c : Char) (h1 : c ≠ '"')
    (h2 : c ≠ '\\') (h3 : ¬(c.toNat < 32)) (rest : List Char) :
    parseStrCharsF (fuel + 1) (c :: rest) =
      (parseStrCharsF fuel rest).map fun p => (c :: p.1, p.2) := by
  simp [parseStrCharsF, h1, h2, h3]

theorem parseStrCharsF_escaped (s : List Char) :
    ∀ fuel rest, s.length < fuel →
      parseStrCharsF fuel (escapeString s ++ '"' :: rest) = some (s, rest) := by
  induction s with
  | nil =>
    intro fuel rest h
    cases fuel with
    | zero => omega
    | succ f => simpa [escapeString] using parseStrCharsF_quote f rest
  | cons c cs ih =>
    intro fuel rest h
    cases fuel with
    | zero => omega
    | succ f =>
      have ihf := ih f rest (by simp at h; omega)
      simp only [escapeString, List.append_assoc]
      by_cases h1 : c = '"'
      · subst h1
        rw [show escapeChar '"' = ['\\', '"'] from rfl]
        simp only [List.cons_append, List.nil_append]
        rw [parseStrCharsF_escStep f _ '"' _
            (parseEscape_simple '"' '"' rfl (by decide) _), ihf]
        rfl
      · by_cases h2 : c = '\\'
        · subst h2
          rw [show escapeChar '\\' = ['\\', '\\'] from rfl]
          simp only [List.cons_append, List.nil_append]
          rw [parseStrCharsF_escStep f _ '\\' _
              (parseEscape_simple '\\' '\\' rfl (by decide) _), ihf]
          rfl
        · by_cases h3 : c = Char.ofNat 8
          · subst h3
            rw [show escapeChar (Char.ofNat 8) = ['\\', 'b'] from rfl]
            simp only [List.cons_append, List.nil_append]
            rw [parseStrCharsF_escStep f _ (Char.ofNat 8) _
                (parseEscape_simple 'b' (Char.ofNat 8) rfl (by decide) _), ihf]
            rfl
          · by_cases h4 : c = Char.ofNat 12
            · subst h4
              rw [show escapeChar (Char.ofNat 12) = ['\\', 'f'] from rfl]
              simp only [List.cons_append, List.nil_append]
              rw [parseStrCharsF_escStep f _ (Char.ofNat 12) _
                  (parseEscape_simple 'f' (Char.ofNat 12) rfl (by decide) _), ihf]
              rfl
            · by_cases h5 : c = '\n'
              · subst h5
                rw [show escapeChar '\n' = ['\\', 'n'] from rfl]
                simp only [List.cons_append, List.nil_append]
                rw [parseStrCharsF_escStep f _ '\n' _
                    (parseEscape_simple 'n' '\n' rfl (by decide) _), ihf]
                rfl
              · by_cases h6 : c = '\r'
                · subst h6
                  rw [show escapeChar '\r' = ['\\', 'r'] from rfl]
                  simp only [List.cons_append, List.nil_append]
                  rw [parseStrCharsF_escStep f _ '\r' _
                      (parseEscape_simple 'r' '\r' rfl (by decide) _), ihf]
                  rfl
                · by_cases h7 : c = '\t'
                  · subst h7
                    rw [show escapeChar '\t' = ['\\', 't'] from rfl]
                    simp only [List.cons_append, List.nil_append]
                    rw [parseStrCharsF_escStep f _ '\t' _
                        (parseEscape_simple 't' '\t' rfl (by decide) _), ihf]
                    rfl
                  · by_cases h8 : c.toNat < 32
                    · have hx1 := hexDigitVal_hexChar (c.toNat / 16) (by omega)
                      have hx2 := hexDigitVal_hexChar (c.toNat % 16) (by omega)
                      have hh : hex4 '0' '0' (hexChar (c.toNat / 16))
                          (hexChar (c.toNat % 16)) = some c.toNat := by
                        simp [hex4, hx1, hx2,
                          show hexDigitVal '0' = some 0 from by decide]
                        omega
                      rw [show escapeChar c =
                          ['\\', 'u', '0', '0', hexChar (c.toNat / 16),
                            hexChar (c.toNat % 16)] from by
                        simp [escapeChar, h1, h2, h3, h4, h5, h6, h7, h8]]
                      simp only [List.cons_append, List.nil_append]
                      rw [parseStrCharsF_escStep f _ (Char.ofNat c.toNat) _
                          (parseEscape_u '0' '0' (hexChar (c.toNat / 16))
                            (hexChar (c.toNat % 16)) c.toNat hh (by omega) _), ihf]
                      simp [Char.ofNat_toNat]
                    · rw [show escapeChar c = [c] from by
                        simp [escapeChar, h1, h2, h3, h4, h5, h6, h7, h8]]
                      simp only [List.cons_append, List.nil_append]
                      rw [parseStrCharsF_raw f c h1 h2 h8, ihf]
                      rfl

theorem escapeChar_length_pos (c : Char) : 0 < (escapeChar c).length := by
  unfold escapeChar
  split_ifs <;> simp

theorem escapeString_length (s : List Char) :
    s.length ≤ (escapeString s).length := by
  induction s with
  | nil => simp [escapeString]
  | cons c cs ih =>
    have hc := escapeChar_length_pos c
    simp only [escapeString, List.length_append, List.length_cons]
    omega

theorem parseStrChars_escaped (s rest : List Char) :
    parseStrChars (escapeString s ++ '"' :: rest) = some (s, rest) := by
  apply parseStrCharsF_escaped
  have h := escapeString_length s
  simp only [List.length_append, List.length_cons]
  omega

/-! ## Head characters of serialized values -/

theorem skipWs_cons_not (c : Char) (t : List Char) (h : jsonWs c = false) :
    skipWs (c :: t) = c :: t := by
  simp [skipWs, h]

theorem digitChar_ne (d : Nat) (h : d < 10) (x : Char)
    (hx : ¬(x.toNat = 48 + d)) : digitChar d ≠ x := by
  intro he
  exact hx (by rw [← he, digitChar_toNat d h])

theorem jsonWs_digitChar (d : Nat) (h : d < 10) : jsonWs (digitChar d) = false := by
  have ht := digitChar_toNat d h
  simp only [jsonWs, Bool.or_eq_false_iff, decide_eq_false_iff_not]
  refine ⟨⟨⟨?_, ?_⟩, ?_⟩, ?_⟩ <;>
    (intro he; rw [he] at ht; simp at ht; omega)

theorem digit_not_keyword (c : Char) (h : isDigitChar c = true) :
    c ≠ 'n' ∧ c ≠ 't' ∧ c ≠ 'f' ∧ c ≠ '"' ∧ c ≠ '[' ∧ c ≠ '{' ∧
    c ≠ ']' ∧ c ≠ '}' ∧ jsonWs c = false := by
  refine ⟨?_, ?_, ?_, ?_, ?_, ?_, ?_, ?_, ?_⟩
  · intro he; subst he; exact absurd h (by decide)
  · intro he; subst he; exact absurd h (by decide)
  · intro he; subst he; exact absurd h (by decide)
  · intro he; subst he; exact absurd h (by decide)
  · intro he; subst he; exact absurd h (by decide)
  · intro he; subst he; exact absurd h (by decide)
  · intro he; subst he; exact absurd h (by decide)
  · intro he; subst he; exact absurd h (by decide)
  · simp only [jsonWs, Bool.or_eq_false_iff, decide_eq_false_iff_not]
    refine ⟨⟨⟨?_, ?_⟩, ?_⟩, ?_⟩ <;>
      (intro he; subst he; exact absurd h (by decide))

theorem stringify_head (v : Json) :
    ∃ c t, jsonStringify v = c :: t ∧ jsonWs c = false ∧ c ≠ ']' ∧ c ≠ '}' := by
  cases v with
  | null => refine ⟨'n', _, rfl, ?_, ?_, ?_⟩ <;> decide
  | bool b =>
    cases b with
    | false => refine ⟨'f', _, rfl, ?_, ?_, ?_⟩ <;> decide
    | true => refine ⟨'t', _, rfl, ?_, ?_, ?_⟩ <;> decide
  | str s => refine ⟨'"', _, rfl, ?_, ?_, ?_⟩ <;> decide
  | arr xs =>
    cases xs with
    | nil => refine ⟨'[', _, rfl, ?_, ?_, ?_⟩ <;> decide
    | cons x xt => refine ⟨'[', _, rfl, ?_, ?_, ?_⟩ <;> decide
  | obj fs =>
    cases fs with
    | nil => refine ⟨'{', _, rfl, ?_, ?_, ?_⟩ <;> decide
    | cons m mt => refine ⟨'{', _, rfl, ?_, ?_, ?_⟩ <;> decide
  | num n =>
    by_cases hn : n < 0
    · refine ⟨'-', natChars n.natAbs, ?_, by decide, by decide, by decide⟩
      simp [jsonStringify, intChars, hn]
    · by_cases h0 : n.natAbs = 0
      · refine ⟨'0', [], ?_, by decide, by decide, by decide⟩
        rw [show jsonStringify (.num n) = intChars n from rfl]
        simp only [intChars, if_neg hn, h0]
        rw [natChars_unfold]
        rfl
      · obtain ⟨d, t, hd, hd0, hd10⟩ := natChars_head n.natAbs (by omega)
        refine ⟨digitChar d, t, ?_, jsonWs_digitChar d hd10, ?_, ?_⟩
        · rw [show jsonStringify (.num n) = intChars n from rfl]
          simp only [intChars, if_neg hn]
          exact hd
        · exact digitChar_ne d hd10 ']' (by simp; omega)
        · exact digitChar_ne d hd10 '}' (by simp; omega)

theorem stringify_length_pos (v : Json) : 0 < (jsonStringify v).length := by
  obtain ⟨c, t, hct, -, -, -⟩ := stringify_head v
  rw [hct]
  simp

theorem skipWs_stringify (v : Json) (x : List Char) :
    skipWs (jsonStringify v ++ x) = jsonStringify v ++ x := by
  obtain ⟨c, t, hct, hws, -, -⟩ := stringify_head v
  rw [hct, List.cons_append]
  exact skipWs_cons_not c (t ++ x) hws

/-! ## JS object construction is the identity on duplicate-free members -/

theorem objInsert_fresh (fs : List (String × Json)) (k : String) (v : Json)
    (h : fs.any (fun kv => kv.1 = k) = false) :
    objInsert fs k v = fs ++ [(k, v)] := by
  simp [objInsert, h]

theorem foldl_objInsert_fresh (ms : List (String × Json)) :
    ∀ acc, (∀ kv ∈ ms, acc.any (fun p => p.1 = kv.1) = false) →
      nodupKeys ms = true →
      ms.foldl (fun a kv => objInsert a kv.1 kv.2) acc = acc ++ ms := by
  induction ms with
  | nil => intro acc _ _; simp
  | cons m mt ih =>
    intro acc hdisj hnd
    obtain ⟨k, v⟩ := m
    simp only [nodupKeys, Bool.and_eq_true, Bool.not_eq_eq_eq_not, Bool.not_true] at hnd
    obtain ⟨hfresh, hnd'⟩ := hnd
    have hacc : acc.any (fun p => p.1 = k) = false := hdisj (k, v) (by simp)
    simp only [List.foldl_cons]
    rw [objInsert_fresh acc k v hacc]
    rw [ih (acc ++ [(k, v)]) ?_ hnd']
    · simp
    · intro kv hkv
      simp only [List.any_append, Bool.or_eq_false_iff]
      constructor
      · exact hdisj kv (by simp [hkv])
      · simp only [List.any_cons, List.any_nil, Bool.or_false,
          decide_eq_false_iff_not]
        intro he
        have : mt.any (fun kv2 => kv2.1 = k) = true := by
          refine List.any_eq_true.mpr ⟨kv, hkv, ?_⟩
          simp [he]
        rw [this] at hfresh
        simp at hfresh

theorem objFromMembers_id (ms : List (String × Json)) (h : nodupKeys ms = true) :
    objFromMembers ms = ms := by
  have := foldl_objInsert_fresh ms [] (by intro kv _; simp) h
  simpa [objFromMembers] using this

theorem wfMembers_nodupKeys (ms : List (String × Json)) (h : wfMembers ms = true) :
    nodupKeys ms = true := by
  induction ms with
  | nil => rfl
  | cons m mt ih =>
    obtain ⟨k, v⟩ := m
    simp only [wfMembers, Bool.and_eq_true] at h
    simp only [nodupKeys, Bool.and_eq_true]
    exact ⟨h.1.1, ih h.2⟩

/-! ## One-token steps of the value parser -/

theorem parseVal_null (f : Nat) (r : List Char) :
    parseVal (f + 1) ('n' :: 'u' :: 'l' :: 'l' :: r) = some (.null, r) := by
  simp [parseVal, skipWs, jsonWs]

theorem parseVal_true (f : Nat) (r : List Char) :
    parseVal (f + 1) ('t' :: 'r' :: 'u' :: 'e' :: r) = some (.bool true, r) := by
  simp [parseVal, skipWs, jsonWs]

theorem parseVal_false (f : Nat) (r : List Char) :
    parseVal (f + 1) ('f' :: 'a' :: 'l' :: 's' :: 'e' :: r) =
      some (.bool false, r) := by
  simp [parseVal, skipWs, jsonWs]

theorem parseVal_arrNil (f : Nat) (r : List Char) :
    parseVal (f + 1) ('[' :: ']' :: r) = some (.arr [], r) := by
  simp [parseVal, skipWs, jsonWs]

theorem parseVal_objNil (f : Nat) (r : List Char) :
    parseVal (f + 1) ('{' :: '}' :: r) = some (.obj [], r) := by
  simp [parseVal, skipWs, jsonWs]

theorem parseVal_str (f : Nat) (r : List Char) :
    parseVal (f + 1) ('"' :: r) =
      (parseStrChars r).map fun p => (.str ⟨p.1⟩, p.2) := by
  simp [parseVal, skipWs, jsonWs]

theorem parseVal_bracket (f : Nat) (r : List Char) :
    parseVal (f + 1) ('[' :: r) =
      (match skipWs r with
       | ']' :: r2 => some (.arr [], r2)
       | cs2 => (parseElems f cs2).map fun p => (.arr p.1, p.2)) := by
  simp [parseVal, skipWs, jsonWs]

theorem parseVal_brace (f : Nat) (r : List Char) :
    parseVal (f + 1) ('{' :: r) =
      (match skipWs r with
       | '}' :: r2 => some (.obj [], r2)
       | cs2 => (parseMembers f cs2).map fun p =>
           (.obj (objFromMembers p.1), p.2)) := by
  simp [parseVal, skipWs, jsonWs]

theorem parseVal_numDispatch (f : Nat) (c : Char) (t : List Char)
    (hws : jsonWs c = false) (hn : c ≠ 'n') (ht : c ≠ 't') (hf : c ≠ 'f')
    (hq : c ≠ '"') (hbk : c ≠ '[') (hbc : c ≠ '{')
    (hg : (c = '-' || isDigitChar c) = true) :
    parseVal (f + 1) (c :: t) = parseNumber (c :: t) := by
  simp only [parseVal]
  rw [skipWs_cons_not c t hws]
  simp [hn, ht, hf, hq, hbk, hbc, hg]

/-! ## The serializer/parser round trip -/

theorem parseVal_num (f : Nat) (n : Int) (rest : List Char)
    (hrest : numBoundary rest = true) :
    parseVal (f + 1) (intChars n ++ rest) = some (.num n, rest) := by
  by_cases hn : n < 0
  · rw [show intChars n = '-' :: natChars n.natAbs from by simp [intChars, hn],
      List.cons_append,
      parseVal_numDispatch f '-' _ (by decide) (by decide) (by decide) (by decide)
        (by decide) (by decide) (by decide) (by decide),
      ← List.cons_append,
      show ('-' :: natChars n.natAbs : List Char) = intChars n from by
        simp [intChars, hn]]
    exact parseNumber_intChars n rest hrest
  · by_cases h0 : n.natAbs = 0
    · have hn0 : n = 0 := by omega
      subst hn0
      rw [show intChars 0 = ['0'] from rfl, List.cons_append, List.nil_append,
        parseVal_numDispatch f '0' _ (by decide) (by decide) (by decide)
          (by decide) (by decide) (by decide) (by decide) (by decide),
        show ('0' :: rest : List Char) = intChars 0 ++ rest from rfl]
      exact parseNumber_intChars 0 rest hrest
    · obtain ⟨d, t, hd, hd0, hd10⟩ := natChars_head n.natAbs (by omega)
      obtain ⟨k1, k2, k3, k4, k5, k6, _, _, k9⟩ :=
        digit_not_keyword (digitChar d) (isDigitChar_digitChar d hd10)
      have hshape : intChars n = digitChar d :: t := by
        rw [show intChars n = natChars n.natAbs from by simp [intChars, hn]]
        exact hd
      rw [hshape, List.cons_append,
        parseVal_numDispatch f (digitChar d) _ k9 k1 k2 k3 k4 k5 k6
          (by simp [isDigitChar_digitChar d hd10]),
        ← List.cons_append, ← hshape]
      exact parseNumber_intChars n rest hrest

theorem matchArr_notBracket (f : Nat) (c0 : Char) (t : List Char)
    (hne : c0 ≠ ']') :
    (match c0 :: t with
     | ']' :: r2 => some (Json.arr [], r2)
     | cs2 => (parseElems f cs2).map fun p => (Json.arr p.1, p.2)) =
      (parseElems f (c0 :: t)).map fun p => (Json.arr p.1, p.2) := by
  split
  · rename_i r2 heq
    injection heq with h1 _
    exact absurd h1 hne
  · rfl

theorem matchObj_notBrace (f : Nat) (c0 : Char) (t : List Char)
    (hne : c0 ≠ '}') :
    (match c0 :: t with
     | '}' :: r2 => some (Json.obj [], r2)
     | cs2 => (parseMembers f cs2).map fun p =>
         (Json.obj (objFromMembers p.1), p.2)) =
      (parseMembers f (c0 :: t)).map fun p =>
        (Json.obj (objFromMembers p.1), p.2) := by
  split
  · rename_i r2 heq
    injection heq with h1 _
    exact absurd h1 hne
  · rfl

theorem parseMembers_step (f : Nat) (r : List Char) :
    parseMembers (f + 1) ('"' :: r) =
      (parseStrChars r).bind fun kr =>
        match skipWs kr.2 with
        | ':' :: r2 =>
          (parseVal f r2).bind fun vr =>
            match skipWs vr.2 with
            | ',' :: r4 =>
              (parseMembers f r4).map fun p => ((⟨kr.1⟩, vr.1) :: p.1, p.2)
            | '}' :: r4 => some ([(⟨kr.1⟩, vr.1)], r4)
            | _ => none
        | _ => none := by
  simp [parseMembers, skipWs, jsonWs]

theorem parse_stringify_all : ∀ fuel : Nat,
    (∀ v rest, Json.wf v = true → (jsonStringify v).length < fuel →
      numBoundary rest = true →
      parseVal fuel (jsonStringify v ++ rest) = some (v, rest)) ∧
    (∀ x xs rest, wfElems (x :: xs) = true →
      (jsonStringify x ++ stringifyElems xs).length + 1 < fuel →
      parseElems fuel ((jsonStringify x ++ stringifyElems xs) ++ ']' :: rest) =
        some (x :: xs, rest)) ∧
    (∀ kv ms rest, wfMembers (kv :: ms) = true →
      (stringifyMember kv ++ stringifyMembers ms).length + 1 < fuel →
      parseMembers fuel
          ((stringifyMember kv ++ stringifyMembers ms) ++ '}' :: rest) =
        some (kv :: ms, rest)) := by
  intro fuel
  induction fuel with
  | zero =>
    refine ⟨?_, ?_, ?_⟩
    · intro v rest _ hlen _; omega
    · intro x xs rest _ hlen; omega
    · intro kv ms rest _ hlen; omega
  | succ f ihp =>
    obtain ⟨ihv, ihe, ihm⟩ := ihp
    refine ⟨?_, ?_, ?_⟩
    · intro v rest hwf hlen hrest
      cases v with
      | null => exact parseVal_null f rest
      | bool b =>
        cases b with
        | true => exact parseVal_true f rest
        | false => exact parseVal_false f rest
      | num n => exact parseVal_num f n rest hrest
      | str s =>
        rw [show jsonStringify (.str s) ++ rest =
            '"' :: (escapeString s.data ++ '"' :: rest) from by
          simp [jsonStringify, renderString]]
        rw [parseVal_str f _, parseStrChars_escaped s.data rest]
        rfl
      | arr xs =>
        cases xs with
        | nil => exact parseVal_arrNil f rest
        | cons x xt =>
          have hwf' : wfElems (x :: xt) = true := hwf
          have hlen' : (jsonStringify x ++ stringifyElems xt).length + 1 < f := by
            rw [show jsonStringify (.arr (x :: xt)) =
                '[' :: (jsonStringify x ++ stringifyElems xt) ++ [']'] from rfl]
              at hlen
            simp only [List.length_cons, List.length_append,
              List.length_nil] at hlen ⊢
            omega
          rw [show jsonStringify (.arr (x :: xt)) ++ rest =
              '[' :: ((jsonStringify x ++ stringifyElems xt) ++ ']' :: rest)
              from by simp [jsonStringify]]
          rw [parseVal_bracket f _]
          obtain ⟨c0, t0, hc0, hws0, hne0, _⟩ := stringify_head x
          have hskip : skipWs
              ((jsonStringify x ++ stringifyElems xt) ++ ']' :: rest) =
              (jsonStringify x ++ stringifyElems xt) ++ ']' :: rest := by
            rw [List.append_assoc]
            exact skipWs_stringify x _
          rw [hskip]
          rw [show (jsonStringify x ++ stringifyElems xt) ++ ']' :: rest =
              c0 :: ((t0 ++ stringifyElems xt) ++ ']' :: rest) from by
            rw [hc0]; simp]
          rw [matchArr_notBracket f c0 _ hne0]
          rw [show c0 :: ((t0 ++ stringifyElems xt) ++ ']' :: rest) =
              (jsonStringify x ++ stringifyElems xt) ++ ']' :: rest from by
            rw [hc0]; simp]
          rw [ihe x xt rest hwf' hlen']
          rfl
      | obj fs =>
        cases fs with
        | nil => exact parseVal_objNil f rest
        | cons kv ms =>
          have hwf' : wfMembers (kv :: ms) = true := hwf
          have hnd := wfMembers_nodupKeys (kv :: ms) hwf'
          have hlen' : (stringifyMember kv ++ stringifyMembers ms).length + 1 < f := by
            rw [show jsonStringify (.obj (kv :: ms)) =
                '{' :: (stringifyMember kv ++ stringifyMembers ms) ++ ['}']
                from rfl] at hlen
            simp only [List.length_cons, List.length_append,
              List.length_nil] at hlen ⊢
            omega
          rw [show jsonStringify (.obj (kv :: ms)) ++ rest =
              '{' :: ((stringifyMember kv ++ stringifyMembers ms) ++ '}' :: rest)
              from by simp [jsonStringify]]
          rw [parseVal_brace f _]
          obtain ⟨k, v⟩ := kv
          have hmem : (stringifyMember (k, v) ++ stringifyMembers ms) ++
              '}' :: rest =
              '"' :: ((escapeString k.data ++ ['"'] ++ ':' :: jsonStringify v ++
                stringifyMembers ms) ++ '}' :: rest) := by
            simp [stringifyMember, renderString]
          rw [hmem]
          rw [skipWs_cons_not '"' _ (by decide)]
          rw [matchObj_notBrace f '"' _ (by decide)]
          rw [← hmem]
          rw [ihm (k, v) ms rest hwf' hlen']
          simp only [Option.map_some']
          rw [objFromMembers_id ((k, v) :: ms) hnd]
    · intro x xs rest hwf hlen
      have hx : Json.wf x = true ∧ wfElems xs = true := by
        simpa [wfElems, Bool.and_eq_true] using hwf
      have hlenx : (jsonStringify x).length < f := by
        simp only [List.length_append] at hlen
        omega
      have hnb : numBoundary (stringifyElems xs ++ ']' :: rest) = true := by
        cases xs with
        | nil => rfl
        | cons y ys => rfl
      simp only [parseElems]
      rw [List.append_assoc]
      rw [ihv x _ hx.1 hlenx hnb]
      simp only [Option.some_bind]
      cases xs with
      | nil =>
        simp [stringifyElems, skipWs_cons_not ']' rest (by decide)]
      | cons y ys =>
        have hys : wfElems (y :: ys) = true := hx.2
        have hleny : (jsonStringify y ++ stringifyElems ys).length + 1 < f := by
          have hpos := stringify_length_pos x
          rw [show stringifyElems (y :: ys) =
              ',' :: (jsonStringify y ++ stringifyElems ys) from rfl] at hlen
          simp only [List.length_append, List.length_cons] at hlen ⊢
          omega
        rw [show stringifyElems (y :: ys) ++ ']' :: rest =
            ',' :: ((jsonStringify y ++ stringifyElems ys) ++ ']' :: rest)
            from by simp [stringifyElems]]
        rw [show skipWs (((x : Json), ',' ::
            ((jsonStringify y ++ stringifyElems ys) ++ ']' :: rest)).2) =
            ',' :: ((jsonStringify y ++ stringifyElems ys) ++ ']' :: rest)
            from skipWs_cons_not ',' _ (by decide)]
        simp only [ihe y ys rest hys hleny]
        rfl
    · intro kv ms rest hwf hlen
      obtain ⟨k, v⟩ := kv
      have hwfd : (ms.any (fun p => p.1 = k) = false ∧ Json.wf v = true) ∧
          wfMembers ms = true := by
        simpa [wfMembers, Bool.and_eq_true] using hwf
      have hlenv : (jsonStringify v).length < f := by
        rw [show stringifyMember (k, v) = renderString k ++ ':' :: jsonStringify v
            from rfl] at hlen
        simp only [List.length_append, List.length_cons] at hlen
        omega
      have hnb : numBoundary (stringifyMembers ms ++ '}' :: rest) = true := by
        cases ms with
        | nil => rfl
        | cons m2 ms2 => rfl
      have hmem : (stringifyMember (k, v) ++ stringifyMembers ms) ++
          '}' :: rest =
          '"' :: (escapeString k.data ++ '"' ::
            (':' :: (jsonStringify v ++ (stringifyMembers ms ++ '}' :: rest)))) := by
        simp [stringifyMember, renderString]
      rw [hmem, parseMembers_step f _]
      rw [parseStrChars_escaped k.data _]
      simp only [Option.some_bind]
      rw [show skipWs ((k.data, ':' ::
          (jsonStringify v ++ (stringifyMembers ms ++ '}' :: rest))).2) =
          ':' :: (jsonStringify v ++ (stringifyMembers ms ++ '}' :: rest))
          from skipWs_cons_not ':' _ (by decide)]
      simp only [ihv v _ hwfd.1.2 hlenv hnb, Option.some_bind]
      cases ms with
      | nil =>
        rw [show skipWs (((v : Json), stringifyMembers
            ([] : List (String × Json)) ++ '}' :: rest).2) = '}' :: rest
            from skipWs_cons_not '}' _ (by decide)]
        rfl
      | cons m2 ms2 =>
        have hwfm2 : wfMembers (m2 :: ms2) = true := hwfd.2
        have hlenm2 : (stringifyMember m2 ++ stringifyMembers ms2).length + 1 < f := by
          have hpos := stringify_length_pos v
          rw [show stringifyMember (k, v) = renderString k ++ ':' :: jsonStringify v
              from rfl,
            show stringifyMembers (m2 :: ms2) =
              ',' :: (stringifyMember m2 ++ stringifyMembers ms2) from rfl] at hlen
          simp only [List.length_append, List.length_cons] at hlen ⊢
          omega
        rw [show stringifyMembers (m2 :: ms2) ++ '}' :: rest =
            ',' :: ((stringifyMember m2 ++ stringifyMembers ms2) ++ '}' :: rest)
            from by simp [stringifyMembers]]
        rw [show skipWs (((v : Json), ',' ::
            ((stringifyMember m2 ++ stringifyMembers ms2) ++ '}' :: rest)).2) =
            ',' :: ((stringifyMember m2 ++ stringifyMembers ms2) ++ '}' :: rest)
            from skipWs_cons_not ',' _ (by decide)]
        simp only [ihm m2 ms2 rest hwfm2 hlenm2]
        rfl

/-- Round trip: `JSON.parse` inverts `JSON.stringify` on every value a JS
object graph can denote. -/
theorem jsonParse_stringify (v : Json) (h : Json.wf v = true) :
    jsonParse ⟨jsonStringify v⟩ = some v := by
  have hmain := (parse_stringify_all ((jsonStringify v).length + 1)).1 v []
    h (Nat.lt_succ_self _) rfl
  rw [List.append_nil] at hmain
  simp only [jsonParse]
  rw [hmain]
  rfl

/-! ## Claim C9 — createCollection round trip -/

/-- C9: for every collection name (including names containing `/` and spaces)
and every create-collection config, `createCollection` issues a PUT whose path
is `/collections/<encodeURIComponent name>` — a segment that percent-decodes
back to exactly the original name — and whose serialized body JSON-decodes to
a value deep-equal (structurally equal) to the input config.  The
well-formedness hypothesis says the config is a value a JS object graph can
denote: member keys are duplicate-free at every level. -/
theorem c9_create_collection (name : String) (config : Json)
    (h : Json.wf config = true) :
    (createCollection name config).method = "PUT" ∧
    (createCollection name config).path =
      "/collections/" ++ encodeURIComponent name ∧
    decodeURIComponent (encodeURIComponent name) = some name ∧
    (createCollection name config).body = some (jsonStringify config) ∧
    jsonParse ⟨jsonStringify config⟩ = some config :=
  ⟨rfl, rfl, decodeURIComponent_encodeURIComponent name, rfl,
    jsonParse_stringify config h⟩

/-- C9 (witness): the claim's own example config `{vectors: {size: 4,
distance: 'Cosine'}}` and a name with `/` and spaces: the encoded segment
decodes back to the name and the serialized body parses back to the config. -/
theorem c9_witness :
    decodeURIComponent (encodeURIComponent "my col/lection") =
      some "my col/lection" ∧
    jsonParse ⟨jsonStringify (.obj [("vectors",
      .obj [("size", .num 4), ("distance", .str "Cosine")])])⟩ =
      some (.obj [("vectors",
        .obj [("size", .num 4), ("distance", .str "Cosine")])]) :=
  ⟨(c9_create_collection "my col/lection" (.obj [("vectors",
      .obj [("size", .num 4), ("distance", .str "Cosine")])]) rfl).2.2.1,
   (c9_create_collection "my col/lection" (.obj [("vectors",
      .obj [("size", .num 4), ("distance", .str "Cosine")])]) rfl).2.2.2.2⟩

/-! ## Claim C10 — createFieldIndex body merge -/

theorem lookupMember_mapReplace_ne (fs : List (String × Json)) (k' : String)
    (v : Json) (k : String) (hne : k' ≠ k) :
    lookupMember (fs.map (fun kv => if kv.1 = k' then (k', v) else kv)) k =
      lookupMember fs k := by
  induction fs with
  | nil => rfl
  | cons m mt ih =>
    obtain ⟨k0, v0⟩ := m
    simp only [List.map_cons]
    by_cases h0 : k0 = k'
    · subst h0
      rw [show (if ((k0, v0) : String × Json).1 = k0 then (k0, v) else (k0, v0)) =
          (k0, v) from by simp]
      simp only [lookupMember, if_neg hne]
      exact ih
    · rw [show (if ((k0, v0) : String × Json).1 = k' then (k', v) else (k0, v0)) =
          (k0, v0) from by simp [h0]]
      simp only [lookupMember]
      by_cases hk : k0 = k
      · rw [if_pos hk, if_pos hk]
      · rw [if_neg hk, if_neg hk]
        exact ih

theorem lookupMember_mapReplace_eq (fs : List (String × Json)) (k' : String)
    (v : Json) (h : fs.any (fun kv => kv.1 = k') = true) :
    lookupMember (fs.map (fun kv => if kv.1 = k' then (k', v) else kv)) k' =
      some v := by
  induction fs with
  | nil => simp at h
  | cons m mt ih =>
    obtain ⟨k0, v0⟩ := m
    simp only [List.map_cons]
    by_cases h0 : k0 = k'
    · subst h0
      rw [show (if ((k0, v0) : String × Json).1 = k0 then (k0, v) else (k0, v0)) =
          (k0, v) from by simp]
      simp [lookupMember]
    · rw [show (if ((k0, v0) : String × Json).1 = k' then (k', v) else (k0, v0)) =
          (k0, v0) from by simp [h0]]
      simp only [lookupMember, if_neg h0]
      apply ih
      simp only [List.any_cons, decide_eq_true_eq, Bool.or_eq_true] at h
      rcases h with h | h
      · exact absurd h h0
      · exact h

theorem lookupMember_absent (fs : List (String × Json)) (k : String)
    (h : fs.any (fun kv => kv.1 = k) = false) :
    lookupMember fs k = none := by
  induction fs with
  | nil => rfl
  | cons m mt ih =>
    obtain ⟨k0, v0⟩ := m
    simp only [List.any_cons, Bool.or_eq_false_iff,
      decide_eq_false_iff_not] at h
    simp only [lookupMember, if_neg h.1]
    exact ih h.2

theorem lookupMember_append (fs gs : List (String × Json)) (k : String) :
    lookupMember (fs ++ gs) k =
      match lookupMember fs k with
      | some v => some v
      | none => lookupMember gs k := by
  induction fs with
  | nil => rfl
  | cons m mt ih =>
    obtain ⟨k0, v0⟩ := m
    by_cases h0 : k0 = k
    · simp [lookupMember, h0]
    · simp only [List.cons_append, lookupMember, if_neg h0]
      exact ih

theorem lookup_objInsert (fs : List (String × Json)) (k' : String) (v : Json)
    (k : String) :
    lookupMember (objInsert fs k' v) k =
      if k' = k then some v else lookupMember fs k := by
  by_cases hmem : fs.any (fun kv => kv.1 = k') = true
  · rw [show objInsert fs k' v =
        fs.map (fun kv => if kv.1 = k' then (k', v) else kv) from by
      simp [objInsert, hmem]]
    by_cases hk : k' = k
    · subst hk
      rw [if_pos rfl]
      exact lookupMember_mapReplace_eq fs k' v hmem
    · rw [if_neg hk]
      exact lookupMember_mapReplace_ne fs k' v k hk
  · have hmem' : fs.any (fun kv => kv.1 = k') = false :=
      Bool.eq_false_iff.mpr hmem
    rw [objInsert_fresh fs k' v hmem', lookupMember_append]
    by_cases hk : k' = k
    · subst hk
      rw [lookupMember_absent fs k' hmem']
      simp [lookupMember]
    · rw [if_neg hk]
      cases hl : lookupMember fs k with
      | some w => rfl
      | none => simp [lookupMember, hk]

theorem lookup_foldl_objInsert (fs : List (String × Json)) :
    ∀ acc k, nodupKeys fs = true →
      lookupMember (fs.foldl (fun a kv => objInsert a kv.1 kv.2) acc) k =
        match lookupMember fs k with
        | some v => some v
        | none => lookupMember acc k := by
  induction fs with
  | nil => intro acc k _; rfl
  | cons m mt ih =>
    intro acc k hnd
    obtain ⟨k0, v0⟩ := m
    simp only [nodupKeys, Bool.and_eq_true, Bool.not_eq_eq_eq_not,
      Bool.not_true] at hnd
    simp only [List.foldl_cons]
    rw [ih (objInsert acc k0 v0) k hnd.2]
    by_cases hk : k0 = k
    · subst hk
      rw [lookupMember_absent mt k0 hnd.1]
      simp [lookupMember, lookup_objInsert]
    · simp only [lookupMember, if_neg hk]
      cases hl : lookupMember mt k with
      | some w => rfl
      | none => simp [lookup_objInsert, hk]

/-- C10: the `createFieldIndex` body is `{field_name: fieldName}` merged with
the optional request object, the request's fields taking precedence: its own
`field_name` (if any) replaces the `fieldName` argument, every other key is
taken from the request unchanged, and with the request omitted the body is
exactly `{field_name: fieldName}`.  The hypothesis says the request object's
keys are duplicate-free, as JS object literals always are. -/
theorem c10_create_field_index (fieldName : String)
    (req : List (String × Json)) (h : nodupKeys req = true) :
    createFieldIndexBody fieldName none = [("field_name", .str fieldName)] ∧
    lookupMember (createFieldIndexBody fieldName (some req)) "field_name" =
      (match lookupMember req "field_name" with
       | some v => some v
       | none => some (.str fieldName)) ∧
    (∀ k, k ≠ "field_name" →
      lookupMember (createFieldIndexBody fieldName (some req)) k =
        lookupMember req k) ∧
    (∀ collectionName wait,
      (createFieldIndex collectionName fieldName (some req) wait).body =
        some (jsonStringify (.obj (createFieldIndexBody fieldName (some req))))) := by
  refine ⟨rfl, ?_, ?_, fun _ _ => rfl⟩
  · rw [show createFieldIndexBody fieldName (some req) =
        req.foldl (fun a kv => objInsert a kv.1 kv.2)
          [("field_name", .str fieldName)] from rfl]
    rw [lookup_foldl_objInsert req _ _ h]
    cases hl : lookupMember req "field_name" with
    | some w => rfl
    | none => simp [lookupMember]
  · intro k hk
    rw [show createFieldIndexBody fieldName (some req) =
        req.foldl (fun a kv => objInsert a kv.1 kv.2)
          [("field_name", .str fieldName)] from rfl]
    rw [lookup_foldl_objInsert req _ _ h]
    cases hl : lookupMember req k with
    | some w => rfl
    | none =>
      simp only [lookupMember]
      rw [if_neg (fun he => hk he.symm)]

/-- C10 (witness): a concrete request whose own `field_name` overrides the
argument, applied through the theorem. -/
theorem c10_witness :
    lookupMember (createFieldIndexBody "myfield"
        (some [("field_name", .str "override"), ("field_schema", .str "keyword")]))
      "field_name" = some (.str "override") :=
  (c10_create_field_index "myfield"
    [("field_name", .str "override"), ("field_schema", .str "keyword")]
    (by decide)).2.1

end Qdrant
